import Mathlib

/-!
Verification of the Tango-verse ("Sun & Moon") puzzle engine.

The definitions below are shallow embeddings of the TypeScript sources:
`src/utils/gameRules.ts` (board validity, uniqueness heuristic, hint search,
row/column violation checks, win condition), the puzzle generator
(`generateValidBoard` / `generateSimpleValidBoard` / `createPuzzle`) and the
`GameBoard` click/undo handlers.  JavaScript arrays are modelled as `List`,
`null` cell types as `none`, ambient randomness as an explicit stream
`Nat → Nat` (each draw of `Math.floor(Math.random() * n)` reads the next
stream value modulo `n`), and the unbounded `while` loop of `createPuzzle`
as fuel-indexed recursion returning `none` when the fuel runs out.
-/

/-- The two symbols of the puzzle (`'sun' | 'moon'` in the source). -/
inductive CellType where
  | sun : CellType
  | moon : CellType
deriving DecidableEq, Repr, Fintype

/-- A board cell as in `types/gameTypes.ts`: `type` is `null` (`none`) when the
cell is empty. -/
structure Block where
  id : Nat
  type : Option CellType
  rotation : Nat
  isLocked : Bool
  isHint : Bool
deriving DecidableEq, Repr

/-- Default block used to model out-of-range array reads. -/
def defaultBlock : Block := ⟨0, none, 0, false, false⟩

/-- `board[i]` of the source. -/
def blockAt (board : List Block) (i : Nat) : Block :=
  board.getD i defaultBlock

/-- `board[i].type` of the source. -/
def typeAt (board : List Block) (i : Nat) : Option CellType :=
  (blockAt board i).type

/-- The cells of row `r`, in column order (`board.slice(r*gs, (r+1)*gs)`). -/
def rowCellsOf (board : List Block) (gs r : Nat) : List Block :=
  (List.range gs).map (fun c => blockAt board (r * gs + c))

/-- The cells of column `c`, in row order
(`Array.from({length: gs}, (_, i) => board[i*gs+c])`). -/
def colCellsOf (board : List Block) (gs c : Nat) : List Block :=
  (List.range gs).map (fun r => blockAt board (r * gs + c))

/-- The symbols of row `r`. -/
def rowTypes (board : List Block) (gs r : Nat) : List (Option CellType) :=
  (rowCellsOf board gs r).map Block.type

/-- The symbols of column `c`. -/
def colTypes (board : List Block) (gs c : Nat) : List (Option CellType) :=
  (colCellsOf board gs c).map Block.type

/-- One iteration of the row/column scan of `isValidBoard`: update
`(sunCount, moonCount, consecutiveSuns, consecutiveMoons)` for one cell. -/
def lineStep (t : Option CellType) (s m cs cm : Nat) : Nat × Nat × Nat × Nat :=
  match t with
  | some CellType.sun => (s + 1, m, cs + 1, 0)
  | some CellType.moon => (s, m + 1, 0, cm + 1)
  | none => (s, m, cs, cm)

/-- The inner loop of `isValidBoard` over one row or column: returns `false`
as soon as a consecutive counter reaches 3, and finally requires
`sunCount == moonCount`. -/
def lineGo : List (Option CellType) → Nat → Nat → Nat → Nat → Bool
  | [], s, m, _, _ => s == m
  | t :: rest, s, m, cs, cm =>
    match lineStep t s m cs cm with
    | (s1, m1, cs1, cm1) =>
      if 3 ≤ cs1 || 3 ≤ cm1 then false else lineGo rest s1 m1 cs1 cm1

/-- `isValidBoard` from `gameRules.ts`: scan every row, then every column. -/
def isValidBoard (board : List Block) (gridSize : Nat) : Bool :=
  ((List.range gridSize).all (fun r => lineGo (rowTypes board gridSize r) 0 0 0 0)) &&
  ((List.range gridSize).all (fun c => lineGo (colTypes board gridSize c) 0 0 0 0))

/-- Number of occurrences of symbol `t` in a line. -/
def countType (l : List (Option CellType)) (t : CellType) : Nat :=
  l.countP (fun x => x == some t)

/-- Modelled from the spec: three consecutive cells of a line starting at
position `i` hold the same (non-empty) symbol. -/
def tripleAt (l : List (Option CellType)) (i : Nat) : Bool :=
  match l.getD i none with
  | none => false
  | some t => (l.getD (i + 1) none == some t) && (l.getD (i + 2) none == some t)

/-- Modelled from the spec: some window of three consecutive cells of the
line holds a single repeated symbol. -/
def hasTripleLine (l : List (Option CellType)) : Bool :=
  (List.range (l.length - 2)).any (tripleAt l)

/-- Modelled from the spec: a line of a fully filled valid board has exactly
3 suns and 3 moons and no three consecutive equal symbols. -/
def specLineOK (l : List (Option CellType)) : Prop :=
  countType l CellType.sun = 3 ∧ countType l CellType.moon = 3 ∧ hasTripleLine l = false

instance (l : List (Option CellType)) : Decidable (specLineOK l) := by
  unfold specLineOK
  infer_instance

/-- On a fully filled line of six cells the scan of `isValidBoard` succeeds
exactly when the line has three of each symbol and no triple. -/
theorem lineGo_spec_filled (a b c d e f : CellType) :
    lineGo [some a, some b, some c, some d, some e, some f] 0 0 0 0 = true ↔
      specLineOK [some a, some b, some c, some d, some e, some f] := by
  revert a b c d e f
  decide

/-- A line of six present symbols satisfies the scan iff it satisfies the
spec-level property. -/
theorem lineGo_spec_of_filled (l : List (Option CellType)) (hlen : l.length = 6)
    (hfill : ∀ x ∈ l, x.isSome = true) :
    lineGo l 0 0 0 0 = true ↔ specLineOK l := by
  rcases l with _ | ⟨a, _ | ⟨b, _ | ⟨c, _ | ⟨d, _ | ⟨e, _ | ⟨f, _ | ⟨g, t⟩⟩⟩⟩⟩⟩⟩ <;>
      simp only [List.length_cons, List.length_nil] at hlen <;> try omega
  obtain ⟨a', ha⟩ := Option.isSome_iff_exists.mp (hfill a (by simp))
  obtain ⟨b', hb⟩ := Option.isSome_iff_exists.mp (hfill b (by simp))
  obtain ⟨c', hc⟩ := Option.isSome_iff_exists.mp (hfill c (by simp))
  obtain ⟨d', hd⟩ := Option.isSome_iff_exists.mp (hfill d (by simp))
  obtain ⟨e', he⟩ := Option.isSome_iff_exists.mp (hfill e (by simp))
  obtain ⟨f', hf⟩ := Option.isSome_iff_exists.mp (hfill f (by simp))
  subst ha hb hc hd he hf
  exact lineGo_spec_filled a' b' c' d' e' f'

theorem rowTypes_length (board : List Block) (gs r : Nat) :
    (rowTypes board gs r).length = gs := by
  simp [rowTypes, rowCellsOf]

theorem colTypes_length (board : List Block) (gs c : Nat) :
    (colTypes board gs c).length = gs := by
  simp [colTypes, colCellsOf]

theorem mem_rowTypes (board : List Block) (gs r : Nat) (x : Option CellType) :
    x ∈ rowTypes board gs r ↔ ∃ c < gs, typeAt board (r * gs + c) = x := by
  simp [rowTypes, rowCellsOf, typeAt, List.mem_map, List.mem_range, eq_comm]

theorem mem_colTypes (board : List Block) (gs c : Nat) (x : Option CellType) :
    x ∈ colTypes board gs c ↔ ∃ r < gs, typeAt board (r * gs + c) = x := by
  simp [colTypes, colCellsOf, typeAt, List.mem_map, List.mem_range, eq_comm]

/-- C1: for every fully filled 6×6 board, `isValidBoard` holds iff every row
and every column has exactly 3 suns and 3 moons and no three consecutive
cells share a symbol. -/
theorem c1_isValidBoard_iff_balanced_and_tripleFree (board : List Block)
    (hlen : board.length = 36)
    (hfill : ∀ i < 36, (typeAt board i).isSome = true) :
    isValidBoard board 6 = true ↔
      (∀ r : Fin 6, specLineOK (rowTypes board 6 (r : Nat))) ∧
      (∀ c : Fin 6, specLineOK (colTypes board 6 (c : Nat))) := by
  have hrow : ∀ r : Nat, r < 6 →
      (lineGo (rowTypes board 6 r) 0 0 0 0 = true ↔ specLineOK (rowTypes board 6 r)) := by
    intro r hr
    refine lineGo_spec_of_filled _ (rowTypes_length board 6 r) ?_
    intro x hx
    obtain ⟨c, hc, hcx⟩ := (mem_rowTypes board 6 r x).mp hx
    have : r * 6 + c < 36 := by omega
    rw [← hcx]
    exact hfill _ this
  have hcol : ∀ c : Nat, c < 6 →
      (lineGo (colTypes board 6 c) 0 0 0 0 = true ↔ specLineOK (colTypes board 6 c)) := by
    intro c hc
    refine lineGo_spec_of_filled _ (colTypes_length board 6 c) ?_
    intro x hx
    obtain ⟨r, hr, hrx⟩ := (mem_colTypes board 6 c x).mp hx
    have : r * 6 + c < 36 := by omega
    rw [← hrx]
    exact hfill _ this
  rw [isValidBoard, Bool.and_eq_true, List.all_eq_true, List.all_eq_true]
  constructor
  · rintro ⟨h1, h2⟩
    refine ⟨fun r => ?_, fun c => ?_⟩
    · exact (hrow r r.isLt).mp (h1 r (List.mem_range.mpr r.isLt))
    · exact (hcol c c.isLt).mp (h2 c (List.mem_range.mpr c.isLt))
  · rintro ⟨h1, h2⟩
    refine ⟨fun r hr => ?_, fun c hc => ?_⟩
    · have hr6 := List.mem_range.mp hr
      exact (hrow r hr6).mpr (h1 ⟨r, hr6⟩)
    · have hc6 := List.mem_range.mp hc
      exact (hcol c hc6).mpr (h2 ⟨c, hc6⟩)

/-- The fixed alternating 6×6 solution used as a concrete fixture (the
"easy" `SOLUTION_PATTERNS` board of `puzzleGenerator.ts`). -/
def easyBoard : List Block :=
  (List.range 36).map (fun i =>
    ⟨i, some (if (i / 6 + i % 6) % 2 == 0 then CellType.sun else CellType.moon),
      0, true, false⟩)

theorem c1_witness :
    easyBoard.length = 36 ∧ (∀ i < 36, (typeAt easyBoard i).isSome = true) ∧
      (isValidBoard easyBoard 6 = true ↔
        (∀ r : Fin 6, specLineOK (rowTypes easyBoard 6 (r : Nat))) ∧
        (∀ c : Fin 6, specLineOK (colTypes easyBoard 6 (c : Nat)))) :=
  ⟨by decide, by decide,
    c1_isValidBoard_iff_balanced_and_tripleFree easyBoard (by decide) (by decide)⟩

/-- `GRID_SIZE` constant of the source. -/
def GRID_SIZE : Nat := 6

/-- The three-adjacent-same-types test of `checkRowRuleViolation` /
`checkColumnRuleViolation` at window start `i`. -/
def adjacentTriple (cells : List Block) (i : Nat) : Bool :=
  ((cells.getD i defaultBlock).type != none) &&
  ((cells.getD i defaultBlock).type == (cells.getD (i + 1) defaultBlock).type) &&
  ((cells.getD i defaultBlock).type == (cells.getD (i + 2) defaultBlock).type)

/-- `checkRowRuleViolation` from `gameRules.ts`. -/
def checkRowRuleViolation (board : List Block) (rowIndex : Nat) : Bool :=
  let rowBlocks := (List.range GRID_SIZE).map (fun i => blockAt board (rowIndex * GRID_SIZE + i))
  let suns := rowBlocks.countP (fun b => b.type == some CellType.sun)
  let moons := rowBlocks.countP (fun b => b.type == some CellType.moon)
  let nullCells := rowBlocks.countP (fun b => b.type == none)
  if 3 < suns || 3 < moons then true
  else if suns + nullCells < 3 || moons + nullCells < 3 then true
  else (List.range (GRID_SIZE - 2)).any (fun i => adjacentTriple rowBlocks i)

/-- `checkColumnRuleViolation` from `gameRules.ts`. -/
def checkColumnRuleViolation (board : List Block) (colIndex : Nat) : Bool :=
  let columnBlocks := (List.range GRID_SIZE).map (fun i => blockAt board (i * GRID_SIZE + colIndex))
  let suns := columnBlocks.countP (fun b => b.type == some CellType.sun)
  let moons := columnBlocks.countP (fun b => b.type == some CellType.moon)
  let nullCells := columnBlocks.countP (fun b => b.type == none)
  if 3 < suns || 3 < moons then true
  else if suns + nullCells < 3 || moons + nullCells < 3 then true
  else (List.range (GRID_SIZE - 2)).any (fun i => adjacentTriple columnBlocks i)

/-- Number of empty cells in a line of symbols. -/
def emptyCountLine (l : List (Option CellType)) : Nat :=
  l.countP (fun x => x == none)

theorem getD_map_type (cells : List Block) (i : Nat) :
    (cells.map Block.type).getD i none = (cells.getD i defaultBlock).type := by
  induction cells generalizing i with
  | nil => rfl
  | cons h t ih =>
    cases i with
    | zero => rfl
    | succ n => simpa using ih n

theorem adjacentTriple_eq_tripleAt (cells : List Block) (i : Nat) :
    adjacentTriple cells i = tripleAt (cells.map Block.type) i := by
  rw [adjacentTriple, tripleAt]
  rw [getD_map_type, getD_map_type, getD_map_type]
  rcases h : (cells.getD i defaultBlock).type with _ | t
  · rfl
  · rcases (cells.getD (i + 1) defaultBlock).type with _ | t1 <;>
      rcases (cells.getD (i + 2) defaultBlock).type with _ | t2 <;>
      rcases t <;> (try rcases t1) <;> (try rcases t2) <;> rfl

theorem countP_line (cells : List Block) (p : Option CellType → Bool) :
    (cells.map Block.type).countP p = cells.countP (fun b => p b.type) := by
  rw [List.countP_map]
  rfl

/-- The generic row/column violation condition at the level of symbol lines,
stated the way the spec phrases it. -/
def specLineViolation (l : List (Option CellType)) : Prop :=
  3 < countType l CellType.sun ∨ 3 < countType l CellType.moon ∨
  countType l CellType.sun + emptyCountLine l < 3 ∨
  countType l CellType.moon + emptyCountLine l < 3 ∨
  ∃ i < 4, tripleAt l i = true

theorem checkRowRuleViolation_iff (board : List Block) (r : Nat) :
    checkRowRuleViolation board r = true ↔ specLineViolation (rowTypes board 6 r) := by
  have hcells : rowTypes board 6 r =
      ((List.range GRID_SIZE).map (fun i => blockAt board (r * GRID_SIZE + i))).map Block.type := by
    rfl
  rw [checkRowRuleViolation, specLineViolation, hcells]
  generalize (List.range GRID_SIZE).map (fun i => blockAt board (r * GRID_SIZE + i)) = cells
  rw [countType, countType, emptyCountLine, countP_line, countP_line, countP_line]
  split_ifs with h1 h2
  · simp only [true_iff]
    rcases Bool.or_eq_true_iff.mp h1 with h | h
    · exact Or.inl (by simpa using h)
    · exact Or.inr (Or.inl (by simpa using h))
  · simp only [true_iff]
    rcases Bool.or_eq_true_iff.mp h2 with h | h
    · exact Or.inr (Or.inr (Or.inl (by simpa using h)))
    · exact Or.inr (Or.inr (Or.inr (Or.inl (by simpa using h))))
  · simp only [Bool.or_eq_true, decide_eq_true_eq, not_or, Bool.not_eq_true] at h1 h2
    simp only [List.any_eq_true, List.mem_range, GRID_SIZE]
    constructor
    · rintro ⟨i, hi, htr⟩
      refine Or.inr (Or.inr (Or.inr (Or.inr ⟨i, by omega, ?_⟩)))
      rw [← adjacentTriple_eq_tripleAt]
      exact htr
    · rintro (h | h | h | h | ⟨i, hi, htr⟩)
      · exact absurd h (by omega)
      · exact absurd h (by omega)
      · exact absurd h (by omega)
      · exact absurd h (by omega)
      · exact ⟨i, by omega, by rw [adjacentTriple_eq_tripleAt]; exact htr⟩

theorem checkColumnRuleViolation_iff (board : List Block) (c : Nat) :
    checkColumnRuleViolation board c = true ↔ specLineViolation (colTypes board 6 c) := by
  have hcells : colTypes board 6 c =
      ((List.range GRID_SIZE).map (fun i => blockAt board (i * GRID_SIZE + c))).map Block.type := by
    rfl
  rw [checkColumnRuleViolation, specLineViolation, hcells]
  generalize (List.range GRID_SIZE).map (fun i => blockAt board (i * GRID_SIZE + c)) = cells
  rw [countType, countType, emptyCountLine, countP_line, countP_line, countP_line]
  split_ifs with h1 h2
  · simp only [true_iff]
    rcases Bool.or_eq_true_iff.mp h1 with h | h
    · exact Or.inl (by simpa using h)
    · exact Or.inr (Or.inl (by simpa using h))
  · simp only [true_iff]
    rcases Bool.or_eq_true_iff.mp h2 with h | h
    · exact Or.inr (Or.inr (Or.inl (by simpa using h)))
    · exact Or.inr (Or.inr (Or.inr (Or.inl (by simpa using h))))
  · simp only [Bool.or_eq_true, decide_eq_true_eq, not_or, Bool.not_eq_true] at h1 h2
    simp only [List.any_eq_true, List.mem_range, GRID_SIZE]
    constructor
    · rintro ⟨i, hi, htr⟩
      refine Or.inr (Or.inr (Or.inr (Or.inr ⟨i, by omega, ?_⟩)))
      rw [← adjacentTriple_eq_tripleAt]
      exact htr
    · rintro (h | h | h | h | ⟨i, hi, htr⟩)
      · exact absurd h (by omega)
      · exact absurd h (by omega)
      · exact absurd h (by omega)
      · exact absurd h (by omega)
      · exact ⟨i, by omega, by rw [adjacentTriple_eq_tripleAt]; exact htr⟩

/-- A cell holding the given symbol (or empty), unlocked, as used in test
fixtures. -/
def mkCell (t : Option CellType) : Block := ⟨0, t, 0, false, false⟩

/-- The scenario row `[sun, moon, sun, moon, sun, Empty]` of the spec. -/
def scenarioRowOpen : List Block :=
  [mkCell (some CellType.sun), mkCell (some CellType.moon), mkCell (some CellType.sun),
   mkCell (some CellType.moon), mkCell (some CellType.sun), mkCell none]

/-- The scenario row after placing a sun in the last cell. -/
def scenarioRowClosed : List Block :=
  [mkCell (some CellType.sun), mkCell (some CellType.moon), mkCell (some CellType.sun),
   mkCell (some CellType.moon), mkCell (some CellType.sun), mkCell (some CellType.sun)]

/-- C7: `checkRowRuleViolation` (resp. `checkColumnRuleViolation`) is true
exactly when the row (resp. column) has more than 3 of a symbol, cannot
reach 3 of a symbol any more, or holds three adjacent equal non-empty
symbols; and the spec's concrete row scenario behaves as stated. -/
theorem c7_rule_violation_characterization :
    (∀ (board : List Block) (r : Fin 6),
        checkRowRuleViolation board (r : Nat) = true ↔
          specLineViolation (rowTypes board 6 (r : Nat))) ∧
    (∀ (board : List Block) (c : Fin 6),
        checkColumnRuleViolation board (c : Nat) = true ↔
          specLineViolation (colTypes board 6 (c : Nat))) ∧
    checkRowRuleViolation scenarioRowOpen 0 = false ∧
    checkRowRuleViolation scenarioRowClosed 0 = true :=
  ⟨fun board r => checkRowRuleViolation_iff board r,
   fun board c => checkColumnRuleViolation_iff board c,
   by decide, by decide⟩

/-- `checkWinCondition` from `gameRules.ts`: cell-by-cell match with the
stored solution plus independent rule satisfaction. -/
def checkWinCondition (boardToCheck solution : List Block) : Bool :=
  if boardToCheck.length == 0 || solution.length == 0 then false
  else
    ((List.range boardToCheck.length).all
        (fun i => typeAt boardToCheck i == typeAt solution i)) &&
    ((List.range GRID_SIZE).all (fun i =>
        !(checkRowRuleViolation boardToCheck i) && !(checkColumnRuleViolation boardToCheck i)))

/-- C8: for non-empty boards of equal length, `checkWinCondition` succeeds
iff the board matches the solution cell by cell and independently passes
all row and column rule checks. -/
theorem c8_checkWinCondition_iff (B S : List Block) (hB : B ≠ []) (hS : S ≠ [])
    (hlen : B.length = S.length)
    (hfill : ∀ i < B.length, (typeAt B i).isSome = true) :
    checkWinCondition B S = true ↔
      ((∀ i < B.length, typeAt B i = typeAt S i) ∧
        ∀ r < 6, checkRowRuleViolation B r = false ∧ checkColumnRuleViolation B r = false) := by
  have hB0 : (B.length == 0 || S.length == 0) = false := by
    simp [List.length_eq_zero, hB, hS]
  rw [checkWinCondition, hB0]
  simp only [Bool.false_eq_true, if_false, Bool.and_eq_true, List.all_eq_true,
    List.mem_range, beq_iff_eq, Bool.not_eq_true', GRID_SIZE]

theorem c8_witness : checkWinCondition easyBoard easyBoard = true :=
  (c8_checkWinCondition_iff easyBoard easyBoard (by decide) (by decide) rfl
    (by decide)).mpr (by decide)

/-- `board.slice(i*gs, (i+1)*gs)`, the row slice used by `hasUniqueSolution`. -/
def sliceRow (board : List Block) (gs i : Nat) : List Block :=
  (board.drop (i * gs)).take gs

/-- Row sun count of `hasUniqueSolution`
(`board.slice(...).filter(b => b.type === 'sun').length`). -/
def rowSunsHU (board : List Block) (gs i : Nat) : Nat :=
  (sliceRow board gs i).countP (fun b => b.type == some CellType.sun)

/-- Row moon count of `hasUniqueSolution`. -/
def rowMoonsHU (board : List Block) (gs i : Nat) : Nat :=
  (sliceRow board gs i).countP (fun b => b.type == some CellType.moon)

/-- Column count of `hasUniqueSolution`
(`board.filter((b, index) => index % gridSize === i && p(b)).length`, with the
array index made explicit through `enum`). -/
def colCountHU (board : List Block) (gs i : Nat) (p : Block → Bool) : Nat :=
  (board.enum.filter (fun q => q.1 % gs == i && p q.2)).length

/-- Column sun count of `hasUniqueSolution`. -/
def colSunsHU (board : List Block) (gs i : Nat) : Nat :=
  colCountHU board gs i (fun b => b.type == some CellType.sun)

/-- Column moon count of `hasUniqueSolution`. -/
def colMoonsHU (board : List Block) (gs i : Nat) : Nat :=
  colCountHU board gs i (fun b => b.type == some CellType.moon)

/-- The loop body of `hasUniqueSolution` over line indices: `none` models the
early `return false` on an over-count, otherwise the constrained-cell
accumulator is threaded through. -/
def huGo (board : List Block) (gs : Nat) : List Nat → Nat → Option Nat
  | [], acc => some acc
  | i :: rest, acc =>
    let rs := rowSunsHU board gs i
    let rm := rowMoonsHU board gs i
    if gs / 2 < rs || gs / 2 < rm then none
    else
      let acc1 := acc + (if rs == gs / 2 then gs - rs - rm else 0) +
        (if rm == gs / 2 then gs - rs - rm else 0)
      let cs := colSunsHU board gs i
      let cm := colMoonsHU board gs i
      if gs / 2 < cs || gs / 2 < cm then none
      else huGo board gs rest (acc1 + (if cs == gs / 2 then gs - cs - cm else 0) +
        (if cm == gs / 2 then gs - cs - cm else 0))

/-- `board.filter(b => b.type === null).length`. -/
def emptyCellsCount (board : List Block) : Nat :=
  board.countP (fun b => b.type == none)

/-- `hasUniqueSolution` from `gameRules.ts`: constrained-cell counting
heuristic with early `false` on over-counted lines. -/
def hasUniqueSolution (board : List Block) (gs : Nat) : Bool :=
  match huGo board gs (List.range gs) 0 with
  | none => false
  | some constrained => decide (emptyCellsCount board ≤ constrained)

theorem enumFrom_countP (l : List Block) (n : Nat) (g : Nat × Block → Bool) :
    (List.enumFrom n l).countP g =
      (List.range l.length).countP (fun j => g (n + j, l.getD j defaultBlock)) := by
  induction l generalizing n with
  | nil => rfl
  | cons a t ih =>
    rw [List.enumFrom, List.countP_cons, ih (n + 1)]
    rw [List.length_cons, List.range_succ_eq_map, List.countP_cons, List.countP_map]
    simp only [Nat.add_zero, List.getD_cons_zero, Function.comp]
    have hj : ∀ j : Nat, (n + 1 + j) = (n + (j + 1)) := by omega
    congr 1
    apply List.countP_congr
    intro j hj2
    simp [List.getD_cons_succ, hj j]

theorem colCount_bridge (q : Nat → Bool) (i : Nat) (hi : i < 6) :
    (List.range 36).countP (fun j => (j % 6 == i) && q j) =
      (List.range 6).countP (fun r => q (r * 6 + i)) := by
  interval_cases i <;>
    simp [List.range_succ, List.countP_append, List.countP_cons, Nat.add_comm]

/-- For a 6×6 board, the index-filter column count of `hasUniqueSolution`
agrees with counting over the extracted column. -/
theorem colCountHU_eq (board : List Block) (hlen : board.length = 36) (i : Nat)
    (hi : i < 6) (p : Block → Bool) :
    colCountHU board 6 i p = (colCellsOf board 6 i).countP p := by
  rw [colCountHU, ← List.countP_eq_length_filter, List.enum, enumFrom_countP, hlen]
  have h1 : (List.range 36).countP
      (fun j => (fun q : Nat × Block => q.1 % 6 == i && p q.2) (0 + j, board.getD j defaultBlock)) =
      (List.range 36).countP (fun j => (j % 6 == i) && p (blockAt board j)) := by
    apply List.countP_congr
    intro j hj
    simp [blockAt]
  rw [h1, colCount_bridge (fun j => p (blockAt board j)) i hi, colCellsOf, List.countP_map]
  rfl

/-- For a 6×6 board, the row slice of `hasUniqueSolution` is the row. -/
theorem sliceRow_eq_rowCells (board : List Block) (hlen : board.length = 36) (i : Nat)
    (hi : i < 6) : sliceRow board 6 i = rowCellsOf board 6 i := by
  apply List.ext_getElem
  · simp [sliceRow, rowCellsOf, hlen]
    omega
  · intro c h1 h2
    have hc : c < 6 := by
      simp [rowCellsOf] at h2
      exact h2
    have hidx : i * 6 + c < 36 := by omega
    simp only [sliceRow, rowCellsOf]
    rw [List.getElem_take, List.getElem_drop]
    rw [List.getElem_map, List.getElem_range]
    rw [blockAt, List.getD_eq_getElem board defaultBlock (by omega : i * 6 + c < board.length)]

/-- The over-count early-exit condition of `hasUniqueSolution` at line `i`. -/
def overHU (board : List Block) (i : Nat) : Prop :=
  3 < rowSunsHU board 6 i ∨ 3 < rowMoonsHU board 6 i ∨
  3 < colSunsHU board 6 i ∨ 3 < colMoonsHU board 6 i

instance (board : List Block) (i : Nat) : Decidable (overHU board i) := by
  unfold overHU
  infer_instance

/-- The constrained-cell credit `hasUniqueSolution` accumulates for line `i`. -/
def codeCreditHU (board : List Block) (i : Nat) : Nat :=
  (if rowSunsHU board 6 i == 3 then 6 - rowSunsHU board 6 i - rowMoonsHU board 6 i else 0) +
  (if rowMoonsHU board 6 i == 3 then 6 - rowSunsHU board 6 i - rowMoonsHU board 6 i else 0) +
  (if colSunsHU board 6 i == 3 then 6 - colSunsHU board 6 i - colMoonsHU board 6 i else 0) +
  (if colMoonsHU board 6 i == 3 then 6 - colSunsHU board 6 i - colMoonsHU board 6 i else 0)

theorem huGo_eq_none_iff (board : List Block) (idxs : List Nat) (acc : Nat) :
    huGo board 6 idxs acc = none ↔ ∃ i ∈ idxs, overHU board i := by
  induction idxs generalizing acc with
  | nil => simp [huGo]
  | cons i rest ih =>
    rw [huGo]
    simp only [show (6 : Nat) / 2 = 3 from rfl]
    by_cases h1 : 3 < rowSunsHU board 6 i ∨ 3 < rowMoonsHU board 6 i
    · have : (decide (3 < rowSunsHU board 6 i) || decide (3 < rowMoonsHU board 6 i)) = true := by
        simpa using h1
      rw [if_pos this]
      simp only [true_iff]
      refine ⟨i, by simp, ?_⟩
      unfold overHU
      tauto
    · have hb1 : (decide (3 < rowSunsHU board 6 i) || decide (3 < rowMoonsHU board 6 i)) = false := by
        simpa using h1
      rw [if_neg (by simp [hb1])]
      by_cases h2 : 3 < colSunsHU board 6 i ∨ 3 < colMoonsHU board 6 i
      · have : (decide (3 < colSunsHU board 6 i) || decide (3 < colMoonsHU board 6 i)) = true := by
          simpa using h2
        rw [if_pos this]
        simp only [true_iff]
        refine ⟨i, by simp, ?_⟩
        unfold overHU
        tauto
      · have hb2 : (decide (3 < colSunsHU board 6 i) || decide (3 < colMoonsHU board 6 i)) = false := by
          simpa using h2
        rw [if_neg (by simp [hb2])]
        rw [ih]
        constructor
        · rintro ⟨j, hj, hov⟩
          exact ⟨j, by simp [hj], hov⟩
        · rintro ⟨j, hj, hov⟩
          rcases List.mem_cons.mp hj with rfl | hj2
          · exfalso
            unfold overHU at hov
            tauto
          · exact ⟨j, hj2, hov⟩

theorem sum_map_add (l : List Nat) (f g : Nat → Nat) :
    (l.map (fun i => f i + g i)).sum = (l.map f).sum + (l.map g).sum := by
  induction l with
  | nil => rfl
  | cons a t ih =>
    simp only [List.map_cons, List.sum_cons, ih]
    omega

theorem huGo_eq_some (board : List Block) (idxs : List Nat) (acc : Nat)
    (h : ∀ i ∈ idxs, ¬ overHU board i) :
    huGo board 6 idxs acc = some (acc + (idxs.map (codeCreditHU board)).sum) := by
  induction idxs generalizing acc with
  | nil => simp [huGo]
  | cons i rest ih =>
    have hi := h i (by simp)
    unfold overHU at hi
    push_neg at hi
    obtain ⟨hrs, hrm, hcs, hcm⟩ := hi
    rw [huGo]
    simp only [show (6 : Nat) / 2 = 3 from rfl]
    rw [if_neg (by simp; omega), if_neg (by simp; omega)]
    rw [ih _ (fun j hj => h j (List.mem_cons_of_mem i hj))]
    simp only [List.map_cons, List.sum_cons, codeCreditHU]
    congr 1
    omega

theorem rowSunsHU_eq (board : List Block) (hlen : board.length = 36) (i : Nat) (hi : i < 6) :
    rowSunsHU board 6 i = countType (rowTypes board 6 i) CellType.sun := by
  rw [rowSunsHU, sliceRow_eq_rowCells board hlen i hi, rowTypes, countType, countP_line]

theorem rowMoonsHU_eq (board : List Block) (hlen : board.length = 36) (i : Nat) (hi : i < 6) :
    rowMoonsHU board 6 i = countType (rowTypes board 6 i) CellType.moon := by
  rw [rowMoonsHU, sliceRow_eq_rowCells board hlen i hi, rowTypes, countType, countP_line]

theorem colSunsHU_eq (board : List Block) (hlen : board.length = 36) (i : Nat) (hi : i < 6) :
    colSunsHU board 6 i = countType (colTypes board 6 i) CellType.sun := by
  rw [colSunsHU, colCountHU_eq board hlen i hi, colTypes, countType, countP_line]

theorem colMoonsHU_eq (board : List Block) (hlen : board.length = 36) (i : Nat) (hi : i < 6) :
    colMoonsHU board 6 i = countType (colTypes board 6 i) CellType.moon := by
  rw [colMoonsHU, colCountHU_eq board hlen i hi, colTypes, countType, countP_line]

theorem count_partition (l : List (Option CellType)) :
    countType l CellType.sun + countType l CellType.moon + emptyCountLine l = l.length := by
  induction l with
  | nil => rfl
  | cons x t ih =>
    rcases x with _ | t' <;> (try rcases t') <;>
      simp [countType, emptyCountLine, List.countP_cons] at * <;>
      omega

/-- Modelled from the spec: the credit a row contributes to the
constrained-cell count (all of its empty cells, when it already holds
exactly three of one symbol). -/
def specRowCredit (board : List Block) (i : Nat) : Nat :=
  if countType (rowTypes board 6 i) CellType.sun = 3 ∨
      countType (rowTypes board 6 i) CellType.moon = 3
  then emptyCountLine (rowTypes board 6 i) else 0

/-- Modelled from the spec: the credit a column contributes to the
constrained-cell count. -/
def specColCredit (board : List Block) (i : Nat) : Nat :=
  if countType (colTypes board 6 i) CellType.sun = 3 ∨
      countType (colTypes board 6 i) CellType.moon = 3
  then emptyCountLine (colTypes board 6 i) else 0

/-- Modelled from the spec: the total number of constrained empty cells,
crediting every row and every column that already has exactly three of one
symbol with its remaining empty cells. -/
def specConstrainedCount (board : List Block) : Nat :=
  ((List.range 6).map (specRowCredit board)).sum +
    ((List.range 6).map (specColCredit board)).sum

theorem codeCreditHU_eq (board : List Block) (hlen : board.length = 36) (i : Nat)
    (hi : i < 6) :
    codeCreditHU board i = specRowCredit board i + specColCredit board i := by
  rw [codeCreditHU, specRowCredit, specColCredit,
    rowSunsHU_eq board hlen i hi, rowMoonsHU_eq board hlen i hi,
    colSunsHU_eq board hlen i hi, colMoonsHU_eq board hlen i hi]
  have hrow := count_partition (rowTypes board 6 i)
  have hcol := count_partition (colTypes board 6 i)
  rw [rowTypes_length] at hrow
  rw [colTypes_length] at hcol
  simp only [beq_iff_eq]
  split_ifs <;> omega

/-- C5 (amended): `hasUniqueSolution` is true iff no row or column has more
than three of one symbol AND the spec's constrained-cell count is at least
the number of empty cells. -/
theorem c5_hasUniqueSolution_characterization (board : List Block)
    (hlen : board.length = 36) :
    hasUniqueSolution board 6 = true ↔
      ((∀ i : Fin 6,
          countType (rowTypes board 6 (i : Nat)) CellType.sun ≤ 3 ∧
          countType (rowTypes board 6 (i : Nat)) CellType.moon ≤ 3 ∧
          countType (colTypes board 6 (i : Nat)) CellType.sun ≤ 3 ∧
          countType (colTypes board 6 (i : Nat)) CellType.moon ≤ 3) ∧
        emptyCellsCount board ≤ specConstrainedCount board) := by
  by_cases hov : ∃ i ∈ List.range 6, overHU board i
  · have hnone := (huGo_eq_none_iff board (List.range 6) 0).mpr hov
    rw [hasUniqueSolution, hnone]
    simp only [Bool.false_eq_true, false_iff]
    obtain ⟨i, hi6, hov2⟩ := hov
    rw [List.mem_range] at hi6
    rintro ⟨hle, _⟩
    have := hle ⟨i, hi6⟩
    unfold overHU at hov2
    rw [rowSunsHU_eq board hlen i hi6, rowMoonsHU_eq board hlen i hi6,
      colSunsHU_eq board hlen i hi6, colMoonsHU_eq board hlen i hi6] at hov2
    simp only at this
    omega
  · push_neg at hov
    have hsome := huGo_eq_some board (List.range 6) 0 hov
    rw [hasUniqueSolution, hsome]
    have hsum : ((List.range 6).map (codeCreditHU board)).sum = specConstrainedCount board := by
      rw [specConstrainedCount, ← sum_map_add]
      apply congrArg
      apply List.map_congr_left
      intro i hi
      exact codeCreditHU_eq board hlen i (List.mem_range.mp hi)
    rw [Nat.zero_add] at hsome ⊢
    rw [hsum]
    simp only [decide_eq_true_eq]
    constructor
    · intro h
      refine ⟨fun i => ?_, h⟩
      have hno := hov i (List.mem_range.mpr i.isLt)
      unfold overHU at hno
      push_neg at hno
      rw [rowSunsHU_eq board hlen i i.isLt, rowMoonsHU_eq board hlen i i.isLt,
        colSunsHU_eq board hlen i i.isLt, colMoonsHU_eq board hlen i i.isLt] at hno
      exact ⟨hno.1, hno.2.1, hno.2.2.1, hno.2.2.2⟩
    · rintro ⟨_, h⟩
      exact h

/-- A 6×6 board entirely filled with suns. -/
def allSunsBoard : List Block :=
  (List.range 36).map (fun i => ⟨i, some CellType.sun, 0, true, false⟩)

/-- C5 counterexample: on the all-suns board the constrained-cell count
(0) is at least the empty-cell count (0), yet `hasUniqueSolution` returns
`false` because of the over-count early exit the claim omits. -/
theorem c5_counterexample :
    ¬(hasUniqueSolution allSunsBoard 6 = true ↔
        emptyCellsCount allSunsBoard ≤ specConstrainedCount allSunsBoard) := by
  decide

theorem c5_witness : hasUniqueSolution easyBoard 6 = true :=
  (c5_hasUniqueSolution_characterization easyBoard (by decide)).mpr (by decide)

/-- The consecutive-pattern test of `hasLogicalHint`: the two immediate
neighbours of `index` inside `cells` carry equal `type` fields (`null`
included, as in the source). -/
def flankEq (cells : List Block) (index : Nat) : Bool :=
  if 0 < index ∧ index < cells.length - 1 then
    (cells.getD (index - 1) defaultBlock).type == (cells.getD (index + 1) defaultBlock).type
  else false

/-- The per-cell constraint test of `hasLogicalHint`'s loop body. -/
def hintTrigger (board : List Block) (gs i : Nat) : Bool :=
  let row := i / gs
  let col := i % gs
  let rowCells := sliceRow board gs row
  let rowSuns := rowCells.countP (fun b => b.type == some CellType.sun)
  let rowMoons := rowCells.countP (fun b => b.type == some CellType.moon)
  let colCells := colCellsOf board gs col
  let colSuns := colCells.countP (fun b => b.type == some CellType.sun)
  let colMoons := colCells.countP (fun b => b.type == some CellType.moon)
  (rowSuns == gs / 2) || (rowMoons == gs / 2) ||
    (colSuns == gs / 2) || (colMoons == gs / 2) ||
    flankEq rowCells col || flankEq colCells row

/-- `hasLogicalHint` from `gameRules.ts`: scan the empty unlocked cells
(each paired with its index) for one satisfying a constraint pattern. -/
def hasLogicalHint (board : List Block) (gs : Nat) : Bool :=
  (((List.range board.length).map (fun j => (j, blockAt board j))).filter
      (fun p => !(p.2.isLocked) && p.2.type == none)).any
    (fun p => hintTrigger board gs p.1)

theorem rowCellsOf_getD (board : List Block) (gs r k : Nat) (hk : k < gs) :
    (rowCellsOf board gs r).getD k defaultBlock = blockAt board (r * gs + k) := by
  rw [rowCellsOf, List.getD_eq_getElem _ _ (by simpa using hk)]
  simp

theorem colCellsOf_getD (board : List Block) (gs c k : Nat) (hk : k < gs) :
    (colCellsOf board gs c).getD k defaultBlock = blockAt board (k * gs + c) := by
  rw [colCellsOf, List.getD_eq_getElem _ _ (by simpa using hk)]
  simp

theorem flankEq_row_iff (board : List Block) (hlen : board.length = 36) (i : Nat)
    (hi : i < 36) :
    (flankEq (sliceRow board 6 (i / 6)) (i % 6) = true) ↔
      (0 < i % 6 ∧ i % 6 < 5 ∧ typeAt board (i - 1) = typeAt board (i + 1)) := by
  rw [sliceRow_eq_rowCells board hlen _ (by omega), flankEq]
  have h6 : (rowCellsOf board 6 (i / 6)).length = 6 := by
    simp [rowCellsOf]
  rw [h6]
  by_cases h : 0 < i % 6 ∧ i % 6 < 6 - 1
  · rw [if_pos h]
    rw [rowCellsOf_getD board 6 _ _ (by omega), rowCellsOf_getD board 6 _ _ (by omega)]
    have e1 : i / 6 * 6 + (i % 6 - 1) = i - 1 := by omega
    have e2 : i / 6 * 6 + (i % 6 + 1) = i + 1 := by omega
    rw [e1, e2]
    simp only [typeAt, beq_iff_eq]
    constructor
    · intro he
      exact ⟨h.1, by omega, he⟩
    · rintro ⟨_, _, he⟩
      exact he
  · rw [if_neg h]
    simp only [Bool.false_eq_true, false_iff]
    rintro ⟨h1, h2, _⟩
    exact h ⟨h1, by omega⟩

theorem flankEq_col_iff (board : List Block) (hlen : board.length = 36) (i : Nat)
    (hi : i < 36) :
    (flankEq (colCellsOf board 6 (i % 6)) (i / 6) = true) ↔
      (0 < i / 6 ∧ i / 6 < 5 ∧ typeAt board (i - 6) = typeAt board (i + 6)) := by
  rw [flankEq]
  have h6 : (colCellsOf board 6 (i % 6)).length = 6 := by
    simp [colCellsOf]
  rw [h6]
  by_cases h : 0 < i / 6 ∧ i / 6 < 6 - 1
  · rw [if_pos h]
    rw [colCellsOf_getD board 6 _ _ (by omega), colCellsOf_getD board 6 _ _ (by omega)]
    have e1 : (i / 6 - 1) * 6 + i % 6 = i - 6 := by omega
    have e2 : (i / 6 + 1) * 6 + i % 6 = i + 6 := by omega
    rw [e1, e2]
    simp only [typeAt, beq_iff_eq]
    constructor
    · intro he
      exact ⟨h.1, by omega, he⟩
    · rintro ⟨_, _, he⟩
      exact he
  · rw [if_neg h]
    simp only [Bool.false_eq_true, false_iff]
    rintro ⟨h1, h2, _⟩
    exact h ⟨h1, by omega⟩

/-- The constraint pattern of `hasLogicalHint`, at the spec level: the cell's
row or column already holds exactly three of one symbol, or its two
immediate row (or column) neighbours carry equal `type` fields. -/
def specHintTrigger (board : List Block) (i : Nat) : Prop :=
  countType (rowTypes board 6 (i / 6)) CellType.sun = 3 ∨
  countType (rowTypes board 6 (i / 6)) CellType.moon = 3 ∨
  countType (colTypes board 6 (i % 6)) CellType.sun = 3 ∨
  countType (colTypes board 6 (i % 6)) CellType.moon = 3 ∨
  (0 < i % 6 ∧ i % 6 < 5 ∧ typeAt board (i - 1) = typeAt board (i + 1)) ∨
  (0 < i / 6 ∧ i / 6 < 5 ∧ typeAt board (i - 6) = typeAt board (i + 6))

instance (board : List Block) (i : Nat) : Decidable (specHintTrigger board i) := by
  unfold specHintTrigger
  infer_instance

theorem hintTrigger_iff (board : List Block) (hlen : board.length = 36) (i : Nat)
    (hi : i < 36) : hintTrigger board 6 i = true ↔ specHintTrigger board i := by
  rw [hintTrigger, specHintTrigger]
  simp only [Bool.or_eq_true, beq_iff_eq]
  rw [flankEq_row_iff board hlen i hi, flankEq_col_iff board hlen i hi]
  rw [sliceRow_eq_rowCells board hlen _ (by omega : i / 6 < 6)]
  simp only [countType, rowTypes, colTypes, countP_line, show (6 : Nat) / 2 = 3 from rfl]
  tauto

/-- C6 (amended): `hasLogicalHint` is true iff some empty, unlocked cell has
a row or column at exactly three of one symbol, or has equal `type` fields
(`null` included) on its two immediate row or column neighbours. -/
theorem c6_hasLogicalHint_characterization (board : List Block)
    (hlen : board.length = 36) :
    hasLogicalHint board 6 = true ↔
      ∃ i : Fin 36, (blockAt board (i : Nat)).isLocked = false ∧
        typeAt board (i : Nat) = none ∧ specHintTrigger board (i : Nat) := by
  rw [hasLogicalHint, hlen, List.any_eq_true]
  constructor
  · rintro ⟨p, hp, htr⟩
    rw [List.mem_filter] at hp
    obtain ⟨hpmem, hpcond⟩ := hp
    rw [List.mem_map] at hpmem
    obtain ⟨j, hj, rfl⟩ := hpmem
    rw [List.mem_range] at hj
    simp only [Bool.and_eq_true, Bool.not_eq_true', beq_iff_eq] at hpcond
    exact ⟨⟨j, hj⟩, hpcond.1, hpcond.2, (hintTrigger_iff board hlen j hj).mp htr⟩
  · rintro ⟨i, hlock, hempty, hspec⟩
    refine ⟨((i : Nat), blockAt board (i : Nat)), ?_, ?_⟩
    · rw [List.mem_filter]
      constructor
      · rw [List.mem_map]
        exact ⟨(i : Nat), List.mem_range.mpr i.isLt, rfl⟩
      · simp only [Bool.and_eq_true, Bool.not_eq_true', beq_iff_eq]
        exact ⟨hlock, hempty⟩
    · exact (hintTrigger_iff board hlen (i : Nat) i.isLt).mpr hspec

/-- The claim's notion of a forced cell: empty, unlocked, and forced by a
row/column at three of one symbol, by two same non-empty flanking symbols,
or by two identically filled cells of a potential triple containing it. -/
def specForcedCell (board : List Block) (i : Nat) : Prop :=
  typeAt board i = none ∧ (blockAt board i).isLocked = false ∧
  (countType (rowTypes board 6 (i / 6)) CellType.sun = 3 ∨
   countType (rowTypes board 6 (i / 6)) CellType.moon = 3 ∨
   countType (colTypes board 6 (i % 6)) CellType.sun = 3 ∨
   countType (colTypes board 6 (i % 6)) CellType.moon = 3 ∨
   (∃ t : CellType, 0 < i % 6 ∧ i % 6 < 5 ∧
      typeAt board (i - 1) = some t ∧ typeAt board (i + 1) = some t) ∨
   (∃ t : CellType, 0 < i / 6 ∧ i / 6 < 5 ∧
      typeAt board (i - 6) = some t ∧ typeAt board (i + 6) = some t) ∨
   (∃ t : CellType, ∃ w < 4, w ≤ i % 6 ∧ i % 6 ≤ w + 2 ∧
      ∀ k < 3, w + k ≠ i % 6 → typeAt board (i / 6 * 6 + (w + k)) = some t) ∨
   (∃ t : CellType, ∃ w < 4, w ≤ i / 6 ∧ i / 6 ≤ w + 2 ∧
      ∀ k < 3, w + k ≠ i / 6 → typeAt board ((w + k) * 6 + i % 6) = some t))

instance (board : List Block) (i : Nat) : Decidable (specForcedCell board i) := by
  unfold specForcedCell
  infer_instance

/-- A 6×6 board with every cell empty and unlocked. -/
def allEmptyBoard : List Block :=
  (List.range 36).map (fun i => ⟨i, none, 0, false, false⟩)

/-- C6 counterexample: on the all-empty board no cell is forced in the
claim's sense, yet `hasLogicalHint` returns `true` (the flanking test
compares `null === null`). -/
theorem c6_counterexample :
    ¬(hasLogicalHint allEmptyBoard 6 = true ↔
        ∃ i : Fin 36, specForcedCell allEmptyBoard (i : Nat)) := by
  decide

theorem c6_witness :
    hasLogicalHint allEmptyBoard 6 = true :=
  (c6_hasLogicalHint_characterization allEmptyBoard (by decide)).mpr
    ⟨⟨1, by decide⟩, by decide, by decide, by decide⟩

/-- The flip `type === 'sun' ? 'moon' : 'sun'` used by the repair pass. -/
def oppositeFlip : Option CellType → Option CellType
  | some CellType.sun => some CellType.moon
  | _ => some CellType.sun

/-- `board[i].type = t` as a list update. -/
def setTypeAt (board : List Block) (i : Nat) (t : Option CellType) : List Block :=
  board.set i { blockAt board i with type := t }

/-- One iteration of `generateSimpleValidBoard`'s repair loop at index `i`:
break a horizontal run ending at `i`, then a vertical run ending at `i`,
each by flipping cell `i`. -/
def repairStep (gs : Nat) (board : List Block) (i : Nat) : List Block :=
  let col := i % gs
  let row := i / gs
  let b1 :=
    if 2 ≤ col then
      if (blockAt board (i - 2)).type == (blockAt board (i - 1)).type &&
          (blockAt board (i - 1)).type == (blockAt board i).type
      then setTypeAt board i (oppositeFlip (blockAt board i).type)
      else board
    else board
  if 2 ≤ row then
    if (blockAt b1 (i - 2 * gs)).type == (blockAt b1 (i - gs)).type &&
        (blockAt b1 (i - gs)).type == (blockAt b1 i).type
    then setTypeAt b1 i (oppositeFlip (blockAt b1 i).type)
    else b1
  else b1

/-- The random independent fill of `generateSimpleValidBoard` (`true` draws
a sun). -/
def initRandomBoard (gs : Nat) (rnd : Nat → Bool) : List Block :=
  (List.range (gs * gs)).map (fun i =>
    ⟨i, some (if rnd i then CellType.sun else CellType.moon), 0, false, false⟩)

/-- `generateSimpleValidBoard` from the puzzle generator: random fill, then
the in-place repair pass over all cells in index order. -/
def generateSimpleValidBoard (gs : Nat) (rnd : Nat → Bool) : List Block :=
  (List.range (gs * gs)).foldl (repairStep gs) (initRandomBoard gs rnd)

/-- The board state of the repair pass after processing cells `0..n-1`. -/
def repairUpTo (gs : Nat) (rnd : Nat → Bool) (n : Nat) : List Block :=
  (List.range n).foldl (repairStep gs) (initRandomBoard gs rnd)

theorem generateSimpleValidBoard_eq_repairUpTo (gs : Nat) (rnd : Nat → Bool) :
    generateSimpleValidBoard gs rnd = repairUpTo gs rnd (gs * gs) := rfl

theorem repairUpTo_succ (gs : Nat) (rnd : Nat → Bool) (n : Nat) :
    repairUpTo gs rnd (n + 1) = repairStep gs (repairUpTo gs rnd n) n := by
  rw [repairUpTo, List.range_succ, List.foldl_append, List.foldl_cons, List.foldl_nil]
  rfl

theorem length_setTypeAt (board : List Block) (i : Nat) (t : Option CellType) :
    (setTypeAt board i t).length = board.length := by
  simp [setTypeAt]

theorem length_repairStep (gs : Nat) (board : List Block) (i : Nat) :
    (repairStep gs board i).length = board.length := by
  rw [repairStep]
  split_ifs <;> simp [length_setTypeAt]

theorem length_repairUpTo (gs : Nat) (rnd : Nat → Bool) (n : Nat) :
    (repairUpTo gs rnd n).length = gs * gs := by
  induction n with
  | zero => simp [repairUpTo, initRandomBoard]
  | succ n ih => rw [repairUpTo_succ, length_repairStep, ih]

theorem blockAt_set_ne (board : List Block) (i j : Nat) (x : Block) (h : j ≠ i) :
    blockAt (board.set i x) j = blockAt board j := by
  rw [blockAt, blockAt, List.getD_eq_getElem?_getD, List.getD_eq_getElem?_getD,
    List.getElem?_set_ne (by omega : i ≠ j)]

theorem blockAt_setTypeAt_ne (board : List Block) (i j : Nat) (t : Option CellType)
    (h : j ≠ i) : blockAt (setTypeAt board i t) j = blockAt board j :=
  blockAt_set_ne board i j _ h

theorem blockAt_repairStep_ne (gs : Nat) (board : List Block) (i j : Nat) (h : j ≠ i) :
    blockAt (repairStep gs board i) j = blockAt board j := by
  rw [repairStep]
  split_ifs <;> simp [blockAt_setTypeAt_ne _ _ _ _ h]

theorem blockAt_repairUpTo_stable (gs : Nat) (rnd : Nat → Bool) (j n : Nat)
    (h : j + 1 ≤ n) :
    blockAt (repairUpTo gs rnd n) j = blockAt (repairUpTo gs rnd (j + 1)) j := by
  induction n with
  | zero => omega
  | succ n ih =>
    rcases Nat.lt_or_ge (j + 1) (n + 1) with hlt | hge
    · rw [repairUpTo_succ, blockAt_repairStep_ne gs _ n j (by omega), ih (by omega)]
    · have : j + 1 = n + 1 := by omega
      rw [this]

theorem oppositeFlip_ne (t : Option CellType) : oppositeFlip t ≠ t := by
  rcases t with _ | t
  · simp [oppositeFlip]
  · rcases t <;> simp [oppositeFlip]

theorem blockAt_setTypeAt_self (board : List Block) (i : Nat) (t : Option CellType)
    (h : i < board.length) : (blockAt (setTypeAt board i t) i).type = t := by
  rw [setTypeAt, blockAt, List.getD_eq_getElem?_getD,
    List.getElem?_set_self (by omega : i < board.length)]
  rfl

/-- After the repair step at cell `i` (with `i` in the third row or below),
the vertical window ending at `i` is not monochromatic. -/
theorem repairStep_breaks_column (board : List Block) (i : Nat)
    (hlen : board.length = 36) (hi : i < 36) (hrow : 2 ≤ i / 6) :
    ¬((blockAt (repairStep 6 board i) (i - 12)).type =
        (blockAt (repairStep 6 board i) (i - 6)).type ∧
      (blockAt (repairStep 6 board i) (i - 6)).type =
        (blockAt (repairStep 6 board i) i).type) := by
  simp only [repairStep]
  set b1 := if 2 ≤ i % 6 then
      if (blockAt board (i - 2)).type == (blockAt board (i - 1)).type &&
          (blockAt board (i - 1)).type == (blockAt board i).type
      then setTypeAt board i (oppositeFlip (blockAt board i).type)
      else board
    else board with hb1
  have hb1len : b1.length = 36 := by
    rw [hb1]
    split_ifs <;> simp [length_setTypeAt, hlen]
  rw [if_pos hrow]
  by_cases hc : ((blockAt b1 (i - 2 * 6)).type == (blockAt b1 (i - 6)).type &&
      (blockAt b1 (i - 6)).type == (blockAt b1 i).type) = true
  · rw [if_pos hc]
    simp only [Bool.and_eq_true, beq_iff_eq] at hc
    rintro ⟨h1, h2⟩
    rw [blockAt_setTypeAt_ne _ _ _ _ (by omega),
      blockAt_setTypeAt_self b1 i _ (by omega)] at h2
    exact oppositeFlip_ne _ (h2.symm.trans hc.2)
  · rw [if_neg hc]
    simp only [Bool.and_eq_true, beq_iff_eq] at hc
    rintro ⟨h1, h2⟩
    have h12 : i - 2 * 6 = i - 12 := by omega
    rw [h12] at hc
    exact hc ⟨h1, h2⟩

/-- C9 (amended): every board produced by the fallback repair generator is
free of vertical three-in-a-row runs (the column fix is applied last and is
never undone), for every random fill. -/
theorem c9_generateSimpleValidBoard_column_safety (rnd : Nat → Bool)
    (c : Fin 6) (r : Fin 4) :
    ¬(typeAt (generateSimpleValidBoard 6 rnd) ((r : Nat) * 6 + (c : Nat)) =
        typeAt (generateSimpleValidBoard 6 rnd) (((r : Nat) + 1) * 6 + (c : Nat)) ∧
      typeAt (generateSimpleValidBoard 6 rnd) (((r : Nat) + 1) * 6 + (c : Nat)) =
        typeAt (generateSimpleValidBoard 6 rnd) (((r : Nat) + 2) * 6 + (c : Nat))) := by
  have hc6 := c.isLt
  have hr4 := r.isLt
  have hFr : generateSimpleValidBoard 6 rnd = repairUpTo 6 rnd 36 :=
    generateSimpleValidBoard_eq_repairUpTo 6 rnd
  set j := ((r : Nat) + 2) * 6 + (c : Nat) with hjdef
  have hj36 : j < 36 := by omega
  have hjd : 2 ≤ j / 6 := by omega
  have e1 : (r : Nat) * 6 + (c : Nat) = j - 12 := by omega
  have e2 : ((r : Nat) + 1) * 6 + (c : Nat) = j - 6 := by omega
  have s0 : blockAt (generateSimpleValidBoard 6 rnd) j =
      blockAt (repairUpTo 6 rnd (j + 1)) j := by
    rw [hFr]
    exact blockAt_repairUpTo_stable 6 rnd j 36 (by omega)
  have s1 : blockAt (generateSimpleValidBoard 6 rnd) (j - 6) =
      blockAt (repairUpTo 6 rnd (j + 1)) (j - 6) := by
    rw [hFr, blockAt_repairUpTo_stable 6 rnd (j - 6) 36 (by omega),
      ← blockAt_repairUpTo_stable 6 rnd (j - 6) (j + 1) (by omega)]
  have s2 : blockAt (generateSimpleValidBoard 6 rnd) (j - 12) =
      blockAt (repairUpTo 6 rnd (j + 1)) (j - 12) := by
    rw [hFr, blockAt_repairUpTo_stable 6 rnd (j - 12) 36 (by omega),
      ← blockAt_repairUpTo_stable 6 rnd (j - 12) (j + 1) (by omega)]
  rintro ⟨h1, h2⟩
  rw [e1, e2] at h1
  rw [e2] at h2
  simp only [typeAt] at h1 h2
  rw [s2, s1] at h1
  rw [s1, s0] at h2
  rw [repairUpTo_succ] at h1 h2
  exact repairStep_breaks_column (repairUpTo 6 rnd j) j
    (length_repairUpTo 6 rnd j) hj36 hjd ⟨h1, h2⟩

/-- The concrete random fill that makes the repair pass recreate a
horizontal run: the column fix at cell 14 flips it back into a row triple. -/
def rndC9List : List Bool :=
  [true, false, true, false, true, false,
   false, true, true, false, true, false,
   false, false, true, true, false, true,
   false, true, false, true, false, true,
   true, false, true, false, true, false,
   false, true, false, true, false, true]

/-- The concrete random fill as a stream. -/
def rndC9 : Nat → Bool := fun n => rndC9List.getD n false

set_option maxRecDepth 4000 in
/-- C9 counterexample: the fallback generator can output a board with a
horizontal run of three moons (cells 12, 13, 14 of row 2). -/
theorem c9_counterexample :
    typeAt (generateSimpleValidBoard 6 rndC9) 12 = some CellType.moon ∧
    typeAt (generateSimpleValidBoard 6 rndC9) 13 = some CellType.moon ∧
    typeAt (generateSimpleValidBoard 6 rndC9) 14 = some CellType.moon := by
  decide

/-- The advisory messages pushed by `handleBlockClick` (content abstracted
to the violated line). -/
inductive RuleMsg where
  | rowViolation : Nat → RuleMsg
  | colViolation : Nat → RuleMsg
deriving DecidableEq, Repr

/-- The `GameBoard` component state touched by `handleBlockClick` /
`handleUndo`. -/
structure PlayState where
  blocks : List Block
  solution : List Block
  moveHistory : List (List Block)
  moveCount : Int
  errorMessages : List RuleMsg
  showCompleted : Bool
  showFailed : Bool
  boardFilled : Bool
deriving DecidableEq, Repr

/-- The click cycle `null -> sun -> moon -> null`. -/
def cycleType : Option CellType → Option CellType
  | none => some CellType.sun
  | some CellType.sun => some CellType.moon
  | some CellType.moon => none

/-- `handleBlockClick` from `GameBoard.tsx`: reject locked cells, push the
previous blocks array onto the history, cycle the clicked cell, recheck the
affected row and column, and on a filled board set the win or fail dialog. -/
def handleBlockClick (s : PlayState) (index : Nat) : PlayState :=
  if (blockAt s.blocks index).isLocked then s
  else
    let newType := cycleType (blockAt s.blocks index).type
    let newBlocks := s.blocks.set index { blockAt s.blocks index with type := newType }
    let rowIndex := index / GRID_SIZE
    let colIndex := index % GRID_SIZE
    let ruleViolations : List RuleMsg :=
      (if checkRowRuleViolation newBlocks rowIndex
        then [RuleMsg.rowViolation rowIndex] else []) ++
      (if checkColumnRuleViolation newBlocks colIndex
        then [RuleMsg.colViolation colIndex] else [])
    let filled := !(newBlocks.any (fun b => b.type == none))
    { blocks := newBlocks
      solution := s.solution
      moveHistory := s.moveHistory ++ [s.blocks]
      moveCount := s.moveCount + 1
      errorMessages := ruleViolations
      showCompleted :=
        if filled && checkWinCondition newBlocks s.solution then true else s.showCompleted
      showFailed :=
        if filled && !(checkWinCondition newBlocks s.solution) then true else s.showFailed
      boardFilled := filled }

/-- `handleUndo` from `GameBoard.tsx`: restore the last saved blocks array,
drop it from the history, decrement the move counter and clear the dialogs. -/
def handleUndo (s : PlayState) : PlayState :=
  if s.moveHistory.length == 0 then s
  else
    { blocks := s.moveHistory.getD (s.moveHistory.length - 1) []
      solution := s.solution
      moveHistory := s.moveHistory.dropLast
      moveCount := s.moveCount - 1
      errorMessages := []
      showCompleted := false
      showFailed := false
      boardFilled := false }

/-- A sequence of clicks. -/
def applyClicks (s : PlayState) (idxs : List Nat) : PlayState :=
  idxs.foldl handleBlockClick s

/-- `n` consecutive undos. -/
def undoN : Nat → PlayState → PlayState
  | 0, s => s
  | n + 1, s => undoN n (handleUndo s)

theorem handleUndo_congr (a b : PlayState) (hb : a.blocks = b.blocks)
    (hh : a.moveHistory = b.moveHistory) :
    (handleUndo a).blocks = (handleUndo b).blocks ∧
      (handleUndo a).moveHistory = (handleUndo b).moveHistory := by
  rw [handleUndo, handleUndo, hh]
  split_ifs <;> simp [hb, hh]

theorem undoN_congr (n : Nat) (a b : PlayState) (hb : a.blocks = b.blocks)
    (hh : a.moveHistory = b.moveHistory) :
    (undoN n a).blocks = (undoN n b).blocks ∧
      (undoN n a).moveHistory = (undoN n b).moveHistory := by
  induction n generalizing a b with
  | zero => exact ⟨hb, hh⟩
  | succ n ih =>
    obtain ⟨hb2, hh2⟩ := handleUndo_congr a b hb hh
    exact ih (handleUndo a) (handleUndo b) hb2 hh2

theorem handleUndo_pop (s : PlayState) (h : List (List Block)) (x : List Block)
    (hh : s.moveHistory = h ++ [x]) :
    (handleUndo s).blocks = x ∧ (handleUndo s).moveHistory = h := by
  rw [handleUndo, hh]
  rw [if_neg (by simp)]
  constructor
  · simp only [List.length_append, List.length_cons, List.length_nil]
    rw [show h.length + (0 + 1) - 1 = h.length by omega]
    rw [List.getD_eq_getElem?_getD, List.getElem?_append_right (Nat.le_refl _)]
    simp
  · simp [List.dropLast_concat]

theorem undoN_empty_history (n : Nat) (s : PlayState) (h : s.moveHistory = []) :
    (undoN n s).blocks = s.blocks ∧ (undoN n s).moveHistory = [] := by
  induction n generalizing s with
  | zero => exact ⟨rfl, h⟩
  | succ n ih =>
    have hu : handleUndo s = s := by
      rw [handleUndo, if_pos (by simp [h])]
    rw [undoN, hu]
    exact ih s h

theorem applyClicks_undo_restores (idxs : List Nat) (s : PlayState) :
    ∃ t : List (List Block),
      t.length ≤ idxs.length ∧
      (applyClicks s idxs).moveHistory = s.moveHistory ++ t ∧
      ∀ m : Nat,
        (undoN (t.length + m) (applyClicks s idxs)).blocks = (undoN m s).blocks ∧
        (undoN (t.length + m) (applyClicks s idxs)).moveHistory =
          (undoN m s).moveHistory := by
  induction idxs generalizing s with
  | nil =>
    refine ⟨[], by simp, by simp [applyClicks], ?_⟩
    intro m
    simp [applyClicks]
  | cons i rest ih =>
    have happ : applyClicks s (i :: rest) = applyClicks (handleBlockClick s i) rest := rfl
    by_cases hl : (blockAt s.blocks i).isLocked
    · have hskip : handleBlockClick s i = s := by
        rw [handleBlockClick, if_pos hl]
      obtain ⟨t, htle, hth, htm⟩ := ih s
      rw [happ, hskip]
      exact ⟨t, by simpa using Nat.le_succ_of_le htle, hth, htm⟩
    · have hist : (handleBlockClick s i).moveHistory = s.moveHistory ++ [s.blocks] := by
        rw [handleBlockClick, if_neg hl]
      obtain ⟨t1, ht1le, ht1h, ht1m⟩ := ih (handleBlockClick s i)
      refine ⟨s.blocks :: t1, by simpa using Nat.succ_le_succ ht1le, ?_, ?_⟩
      · rw [happ, ht1h, hist, List.append_assoc]
        rfl
      · intro m
        have hstep : t1.length + (m + 1) = (s.blocks :: t1).length + m := by
          simp [List.length_cons]
          omega
        obtain ⟨hb1, hh1⟩ := ht1m (m + 1)
        rw [← happ] at hb1 hh1
        rw [← hstep]
        rw [hb1, hh1]
        have hpop := handleUndo_pop (handleBlockClick s i) s.moveHistory s.blocks hist
        have hcong := undoN_congr m (handleUndo (handleBlockClick s i)) s hpop.1 hpop.2
        rw [show undoN (m + 1) (handleBlockClick s i) =
            undoN m (handleUndo (handleBlockClick s i)) from rfl]
        exact hcong

/-- C10 (amended): from any play state whose move history is empty, any
sequence of clicks (locked-cell clicks included) followed by as many undos
restores the board. -/
theorem c10_clicks_then_undos_restore (s : PlayState) (h : s.moveHistory = [])
    (idxs : List Nat) :
    (undoN idxs.length (applyClicks s idxs)).blocks = s.blocks := by
  obtain ⟨t, htle, hth, htm⟩ := applyClicks_undo_restores idxs s
  have hsplit : idxs.length = t.length + (idxs.length - t.length) := by omega
  rw [hsplit]
  obtain ⟨hb, _⟩ := htm (idxs.length - t.length)
  rw [hb]
  exact (undoN_empty_history _ s h).1

/-- A one-cell state whose cell is locked and whose history already holds a
different board. -/
def lockedCellState : PlayState :=
  { blocks := [⟨0, some CellType.sun, 0, true, false⟩]
    solution := []
    moveHistory := [[⟨0, some CellType.moon, 0, true, false⟩]]
    moveCount := 0
    errorMessages := []
    showCompleted := false
    showFailed := false
    boardFilled := false }

/-- C10 counterexample: with a non-empty starting history, one click on a
locked cell (which pushes nothing) followed by one undo pops a pre-existing
history entry and changes the board. -/
theorem c10_counterexample :
    (undoN 1 (applyClicks lockedCellState [0])).blocks ≠ lockedCellState.blocks := by
  decide

theorem c10_witness :
    (undoN (List.length [0]) (applyClicks
        { lockedCellState with moveHistory := [] } [0])).blocks =
      ({ lockedCellState with moveHistory := [] } : PlayState).blocks :=
  c10_clicks_then_undos_restore { lockedCellState with moveHistory := [] } rfl [0]

/-- The difficulty levels (`types/gameTypes.ts`). -/
inductive Difficulty where
  | easy : Difficulty
  | medium : Difficulty
  | hard : Difficulty
  | veryHard : Difficulty
deriving DecidableEq, Repr

/-- Difficulty settings record (`cellsToRemove` is a fraction of the grid). -/
structure DifficultySettings where
  cellsToRemove : Rat
  maxConsecutive : Nat
deriving DecidableEq, Repr

/-- The critical clue cells reserved by `createPuzzle`: one random cell per
row and one per column, two random draws per loop iteration. -/
def criticalHintsList (gs : Nat) (rng : Nat → Nat) (k0 : Nat) : List Nat :=
  (List.range gs).flatMap (fun i =>
    [i * gs + rng (k0 + 2 * i) % gs, i + (rng (k0 + 2 * i + 1) % gs) * gs])

/-- The test board built by `attemptRemoveCell`: clear the candidate cell
and lock exactly the never-removed cells. -/
def testPuzzleOf (puzzle : List Block) (removed : List Nat) (index : Nat) : List Block :=
  (List.range puzzle.length).map (fun i =>
    { blockAt puzzle i with
        type := if i = index then none else (blockAt puzzle i).type
        isLocked := decide (i ≠ index ∧ ¬ i ∈ removed) })

/-- `attemptRemoveCell` from `createPuzzle`: critical cells are never
removable, and a removal must keep `hasUniqueSolution` and
`hasLogicalHint`. -/
def attemptRemoveCell (gs : Nat) (puzzle : List Block) (removed critical : List Nat)
    (index : Nat) : Bool :=
  if index ∈ critical then false
  else hasUniqueSolution (testPuzzleOf puzzle removed index) gs &&
    hasLogicalHint (testPuzzleOf puzzle removed index) gs

/-- The not-yet-removed, non-critical cells. -/
def availableCellsOf (gs : Nat) (removed critical : List Nat) : List Nat :=
  (List.range (gs * gs)).filter (fun i => decide (¬ i ∈ removed ∧ ¬ i ∈ critical))

/-- The `while (removedCells.size < cellsToRemove)` loop of `createPuzzle`,
fuel-indexed: `none` means the fuel ran out (the source loop would still be
running). -/
def removeLoop (gs cellsToRemove : Nat) (critical : List Nat) (rng : Nat → Nat) :
    Nat → List Block → List Nat → Nat → Option (List Block × List Nat × Nat)
  | 0, _, _, _ => none
  | fuel + 1, puzzle, removed, k =>
    if removed.length < cellsToRemove then
      let avail := availableCellsOf gs removed critical
      if avail.isEmpty then some (puzzle, removed, k)
      else
        let idx := avail.getD (rng k % avail.length) 0
        if attemptRemoveCell gs puzzle removed critical idx then
          removeLoop gs cellsToRemove critical rng fuel
            (puzzle.set idx { blockAt puzzle idx with type := none })
            (removed ++ [idx]) (k + 1)
        else removeLoop gs cellsToRemove critical rng fuel puzzle removed (k + 1)
    else some (puzzle, removed, k)

/-- The final map of `createPuzzle`: removed cells become empty and
unlocked, all others locked, hint flags cleared, rotations drawn at random. -/
def finalizePuzzle (puzzle : List Block) (removed : List Nat) (rng : Nat → Nat)
    (k : Nat) : List Block :=
  (List.range puzzle.length).map (fun i =>
    { blockAt puzzle i with
        type := if i ∈ removed then none else (blockAt puzzle i).type
        isLocked := decide (¬ i ∈ removed)
        isHint := false
        rotation := (rng (k + i) % 4) * 90 })

/-- The removal loop followed by the final map, at a removal target already
evaluated to a natural number. -/
def createPuzzleCore (gs ctr : Nat) (critical : List Nat) (rng : Nat → Nat)
    (fuel : Nat) (solution : List Block) (k : Nat) : Option (List Block) :=
  match removeLoop gs ctr critical rng fuel solution [] k with
  | none => none
  | some (puzzle, removed, k2) => some (finalizePuzzle puzzle removed rng k2)

/-- `createPuzzle` from the puzzle generator, with the ambient randomness
passed as a stream (consumed at an explicit cursor) and the unbounded
removal loop bounded by fuel. -/
def createPuzzle (solution : List Block) (difficulty : Difficulty)
    (difficultySettings : Difficulty → DifficultySettings) (gridSize : Nat)
    (rng : Nat → Nat) (k0 fuel : Nat) : Option (List Block) :=
  let settings := difficultySettings difficulty
  let cellsToRemove :=
    Int.toNat (Rat.floor ((gridSize * gridSize : Rat) * settings.cellsToRemove))
  let critical := criticalHintsList gridSize rng k0
  createPuzzleCore gridSize cellsToRemove critical rng fuel solution (k0 + 2 * gridSize)

/-- Modelled from the spec: the forcing value of a line that already holds
exactly three of one symbol (its empty cells must take the other symbol). -/
def lineCountForce (l : List (Option CellType)) : Option CellType :=
  if countType l CellType.sun = 3 then some CellType.moon
  else if countType l CellType.moon = 3 then some CellType.sun
  else none

/-- Modelled from the spec: the value forced on the empty cell of a
three-window whose other two cells hold the same symbol. -/
def windowForce (x y : Option CellType) : Option CellType :=
  match x, y with
  | some CellType.sun, some CellType.sun => some CellType.moon
  | some CellType.moon, some CellType.moon => some CellType.sun
  | _, _ => none

/-- Modelled from the spec: the value forced at position `c` of a line by
one of the three windows containing `c`. -/
def lineWindowForce (l : List (Option CellType)) (c : Nat) : Option CellType :=
  match (if 2 ≤ c then windowForce (l.getD (c - 2) none) (l.getD (c - 1) none) else none) with
  | some t => some t
  | none =>
    match (if 1 ≤ c ∧ c ≤ 4 then
        windowForce (l.getD (c - 1) none) (l.getD (c + 1) none) else none) with
    | some t => some t
    | none => if c ≤ 3 then windowForce (l.getD (c + 1) none) (l.getD (c + 2) none) else none

/-- Modelled from the spec: the value forced on empty cell `i` by the
claim's two deduction rules (row/column at three of one symbol, or a
three-window with two equal filled cells), if any. -/
def forcedValue (board : List Block) (i : Nat) : Option CellType :=
  if typeAt board i ≠ none then none
  else
    match lineCountForce (rowTypes board 6 (i / 6)) with
    | some t => some t
    | none =>
      match lineCountForce (colTypes board 6 (i % 6)) with
      | some t => some t
      | none =>
        match lineWindowForce (rowTypes board 6 (i / 6)) (i % 6) with
        | some t => some t
        | none => lineWindowForce (colTypes board 6 (i % 6)) (i / 6)

/-- Modelled from the spec: apply every currently forced deduction at once. -/
def replayStep (board : List Block) : List Block :=
  (List.range board.length).map (fun i =>
    match forcedValue board i with
    | some t => { blockAt board i with type := some t }
    | none => blockAt board i)

/-- Modelled from the spec: replay forced deductions to a fixed point (36
rounds always suffice on a 6×6 board). -/
def replayFix (board : List Block) : List Block :=
  replayStep^[36] board

/-- The concrete random stream steering `createPuzzle` on the alternating
solution: twelve draws choose the critical cells, then eight draws pick the
removal candidates (four cells that are alone in their row and column, then
the four corners of the rectangle spanned by rows 0 and 5 and columns 0
and 5); every removal passes both carver checks. -/
def rngC2List : List Nat :=
  [2, 2, 3, 3, 4, 4, 5, 5, 0, 0, 2, 2, 5, 9, 12, 15, 0, 2, 14, 16]

/-- The stream form of `rngC2List`. -/
def rngC2 : Nat → Nat := fun n => rngC2List.getD n 0

/-- The difficulty settings used in the C2 run: remove ⌊36·(2/9)⌋ = 8 cells. -/
def c2Settings : Difficulty → DifficultySettings := fun _ => ⟨2 / 9, 3⟩

/-- `createPuzzle` with its removal target already evaluated to a natural
number (the rational arithmetic does not reduce inside `decide`). -/
theorem createPuzzle_count_rw (solution : List Block) (difficulty : Difficulty)
    (ds : Difficulty → DifficultySettings) (gridSize : Nat) (rng : Nat → Nat)
    (k0 fuel n : Nat)
    (hn : Int.toNat
        (Rat.floor ((gridSize * gridSize : Rat) * (ds difficulty).cellsToRemove)) = n) :
    createPuzzle solution difficulty ds gridSize rng k0 fuel =
      createPuzzleCore gridSize n (criticalHintsList gridSize rng k0) rng fuel
        solution (k0 + 2 * gridSize) := by
  rw [createPuzzle, hn]

theorem c2_count_eq :
    Int.toNat (Rat.floor (((6 : Nat) * (6 : Nat) : Rat) *
      (c2Settings Difficulty.easy).cellsToRemove)) = 8 := by
  have h : (((6 : Nat) * (6 : Nat) : Rat) * (c2Settings Difficulty.easy).cellsToRemove) =
      ((8 : Nat) : Rat) := by
    rw [c2Settings]
    push_cast
    norm_num
  rw [h, show Rat.floor (((8 : Nat) : Rat)) = ⌊((8 : Nat) : Rat)⌋ from rfl,
    Int.floor_natCast]
  rfl

/-- The carved puzzle of the C2 run, computed at the natural-number level. -/
def c2Puzzle : List Block :=
  (createPuzzleCore 6 8 (criticalHintsList 6 rngC2 0) rngC2 20 easyBoard (0 + 2 * 6)).getD []

set_option maxRecDepth 8000 in
/-- C2 counterexample: `createPuzzle` can return a puzzle (eight cells
removed from the alternating solution, every intermediate state passing
`hasUniqueSolution` and `hasLogicalHint`) on which the forced deductions
reach a fixed point that still has empty cells — cell 0 never gets filled,
although the solution holds a sun there. -/
theorem c2_counterexample :
    createPuzzle easyBoard Difficulty.easy c2Settings 6 rngC2 0 20 = some c2Puzzle ∧
    replayStep (replayFix c2Puzzle) = replayFix c2Puzzle ∧
    typeAt (replayFix c2Puzzle) 0 = none ∧
    typeAt easyBoard 0 = some CellType.sun := by
  refine ⟨?_, by decide, by decide, by decide⟩
  rw [createPuzzle_count_rw easyBoard Difficulty.easy c2Settings 6 rngC2 0 20 8 c2_count_eq]
  decide

theorem getD_map_range {α : Type} (n i : Nat) (f : Nat → α) (d : α) (h : i < n) :
    ((List.range n).map f).getD i d = f i := by
  rw [List.getD_eq_getElem _ _ (by simpa using h)]
  simp

theorem length_finalizePuzzle (puzzle : List Block) (removed : List Nat)
    (rng : Nat → Nat) (k : Nat) :
    (finalizePuzzle puzzle removed rng k).length = puzzle.length := by
  simp [finalizePuzzle]

theorem blockAt_finalizePuzzle (puzzle : List Block) (removed : List Nat)
    (rng : Nat → Nat) (k i : Nat) (h : i < puzzle.length) :
    blockAt (finalizePuzzle puzzle removed rng k) i =
      { blockAt puzzle i with
          type := if i ∈ removed then none else (blockAt puzzle i).type
          isLocked := decide (¬ i ∈ removed)
          isHint := false
          rotation := (rng (k + i) % 4) * 90 } := by
  rw [finalizePuzzle, blockAt, getD_map_range puzzle.length i _ _ h]

theorem avail_not_critical (gs : Nat) (removed critical : List Nat) (idx : Nat)
    (h : idx ∈ availableCellsOf gs removed critical) : ¬ idx ∈ critical := by
  rw [availableCellsOf, List.mem_filter] at h
  have := h.2
  simp only [decide_eq_true_eq] at this
  exact this.2

theorem avail_pick_mem (gs : Nat) (removed critical : List Nat) (rng : Nat → Nat) (k : Nat)
    (h : (availableCellsOf gs removed critical).isEmpty = false) :
    (availableCellsOf gs removed critical).getD
        (rng k % (availableCellsOf gs removed critical).length) 0 ∈
      availableCellsOf gs removed critical := by
  have hne : availableCellsOf gs removed critical ≠ [] := by
    intro hnil
    rw [hnil] at h
    exact absurd h (by simp)
  have hpos : 0 < (availableCellsOf gs removed critical).length :=
    List.length_pos.mpr hne
  have hlt : rng k % (availableCellsOf gs removed critical).length <
      (availableCellsOf gs removed critical).length := Nat.mod_lt _ hpos
  rw [List.getD_eq_getElem _ _ hlt]
  exact List.getElem_mem hlt

theorem removeLoop_spec (gs ctr : Nat) (critical : List Nat) (rng : Nat → Nat) :
    ∀ (fuel : Nat) (puzzle : List Block) (removed : List Nat) (k : Nat)
      (out : List Block × List Nat × Nat),
      removeLoop gs ctr critical rng fuel puzzle removed k = some out →
      out.1.length = puzzle.length ∧
      (∀ j ∈ out.2.1, j ∈ removed ∨ ¬ j ∈ critical) ∧
      (∀ i, ¬ i ∈ out.2.1 → blockAt out.1 i = blockAt puzzle i) ∧
      (∀ i ∈ removed, i ∈ out.2.1) := by
  intro fuel
  induction fuel with
  | zero =>
    intro puzzle removed k out h
    exact absurd h (by rw [removeLoop]; simp)
  | succ fuel ih =>
    intro puzzle removed k out h
    rw [removeLoop] at h
    by_cases hlt : removed.length < ctr
    · rw [if_pos hlt] at h
      by_cases hemp : (availableCellsOf gs removed critical).isEmpty
      · rw [if_pos hemp] at h
        obtain rfl : (puzzle, removed, k) = out := Option.some.inj h
        exact ⟨rfl, fun j hj => Or.inl hj, fun i hi => rfl, fun i hi => hi⟩
      · rw [if_neg hemp] at h
        set idx := (availableCellsOf gs removed critical).getD
          (rng k % (availableCellsOf gs removed critical).length) 0 with hidx
        have hmem : idx ∈ availableCellsOf gs removed critical :=
          avail_pick_mem gs removed critical rng k (by simpa using hemp)
        have hcrit : ¬ idx ∈ critical := avail_not_critical gs removed critical idx hmem
        by_cases hatt : attemptRemoveCell gs puzzle removed critical idx
        · rw [if_pos hatt] at h
          obtain ⟨hl, hcr, hbl, hmono⟩ := ih _ _ _ _ h
          refine ⟨by rw [hl]; simp, ?_, ?_, ?_⟩
          · intro j hj
            rcases hcr j hj with hj2 | hj2
            · rcases List.mem_append.mp hj2 with hj3 | hj3
              · exact Or.inl hj3
              · have : j = idx := by simpa using hj3
                exact Or.inr (this ▸ hcrit)
            · exact Or.inr hj2
          · intro i hi
            rw [hbl i hi]
            have hine : i ≠ idx := by
              intro hie
              exact hi (hmono i (by simp [hie]))
            exact blockAt_set_ne puzzle idx i _ hine
          · intro i hi
            exact hmono i (by simp [hi])
        · rw [if_neg hatt] at h
          obtain ⟨hl, hcr, hbl, hmono⟩ := ih _ _ _ _ h
          exact ⟨hl, hcr, hbl, hmono⟩
    · rw [if_neg hlt] at h
      obtain rfl : (puzzle, removed, k) = out := Option.some.inj h
      exact ⟨rfl, fun j hj => Or.inl hj, fun i hi => rfl, fun i hi => hi⟩

theorem criticalHints_row_cover (rng : Nat → Nat) (k0 : Nat) (r : Nat) (hr : r < 6) :
    r * 6 + rng (k0 + 2 * r) % 6 ∈ criticalHintsList 6 rng k0 := by
  rw [criticalHintsList, List.mem_flatMap]
  exact ⟨r, List.mem_range.mpr hr, by simp⟩

theorem criticalHints_col_cover (rng : Nat → Nat) (k0 : Nat) (c : Nat) (hc : c < 6) :
    c + (rng (k0 + 2 * c + 1) % 6) * 6 ∈ criticalHintsList 6 rng k0 := by
  rw [criticalHintsList, List.mem_flatMap]
  exact ⟨c, List.mem_range.mpr hc, by simp⟩

theorem createPuzzleCore_some_spec (solution : List Block) (hlen : solution.length = 36)
    (ctr : Nat) (rng : Nat → Nat) (k0 fuel k : Nat) (P : List Block)
    (hP : createPuzzleCore 6 ctr (criticalHintsList 6 rng k0) rng fuel solution k = some P) :
    P.length = 36 ∧
    (∀ i : Fin 36, ((blockAt P (i : Nat)).isLocked = true ∧
        typeAt P (i : Nat) = typeAt solution (i : Nat)) ∨
      ((blockAt P (i : Nat)).isLocked = false ∧ typeAt P (i : Nat) = none)) ∧
    (∀ r : Fin 6, ∃ c : Fin 6, (blockAt P ((r : Nat) * 6 + (c : Nat))).isLocked = true) ∧
    (∀ c : Fin 6, ∃ r : Fin 6, (blockAt P ((r : Nat) * 6 + (c : Nat))).isLocked = true) := by
  rw [createPuzzleCore] at hP
  rcases hres : removeLoop 6 ctr (criticalHintsList 6 rng k0) rng fuel solution [] k with
    _ | ⟨p, rem, k2⟩
  · rw [hres] at hP
    exact absurd hP (by simp)
  · rw [hres] at hP
    obtain rfl : finalizePuzzle p rem rng k2 = P := Option.some.inj hP
    obtain ⟨hpl, hremc, hpcells, _⟩ :=
      removeLoop_spec 6 ctr (criticalHintsList 6 rng k0) rng fuel solution [] k
        (p, rem, k2) hres
    have hplen : p.length = 36 := by rw [hpl, hlen]
    have hremnc : ∀ j ∈ rem, ¬ j ∈ criticalHintsList 6 rng k0 := by
      intro j hj
      rcases hremc j hj with hj2 | hj2
      · exact absurd hj2 (List.not_mem_nil j)
      · exact hj2
    have hcell : ∀ i : Nat, i < 36 →
        ((blockAt (finalizePuzzle p rem rng k2) i).isLocked = true ∧
          typeAt (finalizePuzzle p rem rng k2) i = typeAt solution i) ∨
        ((blockAt (finalizePuzzle p rem rng k2) i).isLocked = false ∧
          typeAt (finalizePuzzle p rem rng k2) i = none) := by
      intro i hi
      rw [typeAt, blockAt_finalizePuzzle p rem rng k2 i (by omega)]
      by_cases hirem : i ∈ rem
      · right
        simp [hirem]
      · left
        rw [hpcells i hirem]
        simp [hirem, typeAt]
    refine ⟨by rw [length_finalizePuzzle, hplen], fun i => hcell (i : Nat) i.isLt, ?_, ?_⟩
    · intro r
      refine ⟨⟨rng (k0 + 2 * (r : Nat)) % 6, Nat.mod_lt _ (by omega)⟩, ?_⟩
      have hmem := criticalHints_row_cover rng k0 (r : Nat) r.isLt
      have hnot : ¬ (r : Nat) * 6 + rng (k0 + 2 * (r : Nat)) % 6 ∈ rem := by
        intro hin
        exact hremnc _ hin hmem
      have hlt36 : (r : Nat) * 6 + rng (k0 + 2 * (r : Nat)) % 6 < 36 := by
        have := r.isLt
        have := Nat.mod_lt (rng (k0 + 2 * (r : Nat))) (show 0 < 6 by omega)
        omega
      rw [blockAt_finalizePuzzle p rem rng k2 _ (by omega)]
      simp [hnot]
    · intro c
      refine ⟨⟨rng (k0 + 2 * (c : Nat) + 1) % 6, Nat.mod_lt _ (by omega)⟩, ?_⟩
      have hmem := criticalHints_col_cover rng k0 (c : Nat) c.isLt
      have heq : (rng (k0 + 2 * (c : Nat) + 1) % 6) * 6 + (c : Nat) =
          (c : Nat) + (rng (k0 + 2 * (c : Nat) + 1) % 6) * 6 := by omega
      have hnot : ¬ (rng (k0 + 2 * (c : Nat) + 1) % 6) * 6 + (c : Nat) ∈ rem := by
        rw [heq]
        intro hin
        exact hremnc _ hin hmem
      have hlt36 : (rng (k0 + 2 * (c : Nat) + 1) % 6) * 6 + (c : Nat) < 36 := by
        have := c.isLt
        have := Nat.mod_lt (rng (k0 + 2 * (c : Nat) + 1)) (show 0 < 6 by omega)
        omega
      rw [blockAt_finalizePuzzle p rem rng k2 _ (by omega)]
      simp [hnot]

/-- C3: every puzzle returned by `createPuzzle` keeps at least one locked
cell in every row and in every column, and every cell either keeps the
solution's symbol locked or is empty and unlocked. -/
theorem c3_createPuzzle_clue_guarantee (solution : List Block)
    (hlen : solution.length = 36) (difficulty : Difficulty)
    (ds : Difficulty → DifficultySettings) (rng : Nat → Nat) (k0 fuel : Nat)
    (P : List Block)
    (hP : createPuzzle solution difficulty ds 6 rng k0 fuel = some P) :
    (∀ r : Fin 6, ∃ c : Fin 6, (blockAt P ((r : Nat) * 6 + (c : Nat))).isLocked = true) ∧
    (∀ c : Fin 6, ∃ r : Fin 6, (blockAt P ((r : Nat) * 6 + (c : Nat))).isLocked = true) ∧
    (∀ i : Fin 36, ((blockAt P (i : Nat)).isLocked = true ∧
        typeAt P (i : Nat) = typeAt solution (i : Nat)) ∨
      ((blockAt P (i : Nat)).isLocked = false ∧ typeAt P (i : Nat) = none)) := by
  rw [createPuzzle_count_rw solution difficulty ds 6 rng k0 fuel _ rfl] at hP
  obtain ⟨_, hcells, hrow, hcol⟩ :=
    createPuzzleCore_some_spec solution hlen _ rng k0 fuel _ P hP
  exact ⟨hrow, hcol, hcells⟩

/-- Settings with a zero removal fraction, for a cheap witness run. -/
def zeroSettings : Difficulty → DifficultySettings := fun _ => ⟨0, 3⟩

theorem zero_count_eq :
    Int.toNat (Rat.floor (((6 : Nat) * (6 : Nat) : Rat) *
      (zeroSettings Difficulty.easy).cellsToRemove)) = 0 := by
  have h : (((6 : Nat) * (6 : Nat) : Rat) * (zeroSettings Difficulty.easy).cellsToRemove) =
      ((0 : Nat) : Rat) := by
    rw [zeroSettings]
    push_cast
    norm_num
  rw [h, show Rat.floor (((0 : Nat) : Rat)) = ⌊((0 : Nat) : Rat)⌋ from rfl,
    Int.floor_natCast]
  rfl

/-- The all-zero random stream. -/
def rngZero : Nat → Nat := fun _ => 0

/-- The puzzle of the zero-removal witness run. -/
def c3WitnessPuzzle : List Block :=
  (createPuzzleCore 6 0 (criticalHintsList 6 rngZero 0) rngZero 1 easyBoard (0 + 2 * 6)).getD []

theorem c3_witness :
    (∀ r : Fin 6, ∃ c : Fin 6,
      (blockAt c3WitnessPuzzle ((r : Nat) * 6 + (c : Nat))).isLocked = true) ∧
    (∀ c : Fin 6, ∃ r : Fin 6,
      (blockAt c3WitnessPuzzle ((r : Nat) * 6 + (c : Nat))).isLocked = true) ∧
    (∀ i : Fin 36, ((blockAt c3WitnessPuzzle (i : Nat)).isLocked = true ∧
        typeAt c3WitnessPuzzle (i : Nat) = typeAt easyBoard (i : Nat)) ∨
      ((blockAt c3WitnessPuzzle (i : Nat)).isLocked = false ∧
        typeAt c3WitnessPuzzle (i : Nat) = none)) :=
  c3_createPuzzle_clue_guarantee easyBoard (by decide) Difficulty.easy zeroSettings
    rngZero 0 1 c3WitnessPuzzle
    (by
      rw [createPuzzle_count_rw easyBoard Difficulty.easy zeroSettings 6 rngZero 0 1 0
        zero_count_eq]
      decide)

theorem length_le_filter_ne_add_one (l : List Nat) (a : Nat) (hnd : l.Nodup) :
    l.length ≤ (l.filter (fun x => decide (x ≠ a))).length + 1 := by
  induction l with
  | nil => simp
  | cons b t ih =>
    rw [List.nodup_cons] at hnd
    by_cases hba : b = a
    · subst hba
      rw [List.filter_cons_of_neg (by simp)]
      have hself : t.filter (fun x => decide (x ≠ b)) = t := by
        apply List.filter_eq_self.mpr
        intro x hx
        simp only [decide_eq_true_eq]
        intro he
        subst he
        exact hnd.1 hx
      rw [hself]
      simp
    · rw [List.filter_cons_of_pos (by simpa using hba)]
      simp only [List.length_cons]
      have := ih hnd.2
      omega

theorem length_le_filter_not_mem_add (L : List Nat) (l : List Nat) (hnd : l.Nodup) :
    l.length ≤ (l.filter (fun x => decide (¬ x ∈ L))).length + L.length := by
  induction L generalizing l with
  | nil =>
    have hall : l.filter (fun x => decide (¬ x ∈ ([] : List Nat))) = l := by
      apply List.filter_eq_self.mpr
      intro x hx
      simp
    rw [hall]
    simp
  | cons a L' ih =>
    have hcomp : l.filter (fun x => decide (¬ x ∈ (a :: L'))) =
        (l.filter (fun x => decide (x ≠ a))).filter (fun x => decide (¬ x ∈ L')) := by
      rw [List.filter_filter]
      apply List.filter_congr
      intro x hx
      by_cases h1 : x = a <;> by_cases h2 : x ∈ L' <;> simp [h1, h2]
    rw [hcomp]
    have h1 := length_le_filter_ne_add_one l a hnd
    have h2 := ih (l.filter (fun x => decide (x ≠ a))) (List.Nodup.filter _ hnd)
    simp only [List.length_cons]
    omega

theorem criticalHintsList_length (rng : Nat → Nat) (k0 : Nat) :
    (criticalHintsList 6 rng k0).length = 12 := rfl

theorem availableCells_nonempty (critical : List Nat) (hc : critical.length ≤ 12) :
    (availableCellsOf 6 [] critical).isEmpty = false := by
  have hcong : availableCellsOf 6 [] critical =
      (List.range (6 * 6)).filter (fun x => decide (¬ x ∈ critical)) := by
    rw [availableCellsOf]
    apply List.filter_congr
    intro x hx
    simp
  have hge := length_le_filter_not_mem_add critical (List.range (6 * 6)) (List.nodup_range _)
  rw [List.length_range] at hge
  have hlenpos : 0 < (availableCellsOf 6 [] critical).length := by
    rw [hcong]
    omega
  rcases h : (availableCellsOf 6 [] critical).isEmpty with _ | _
  · rfl
  · exfalso
    have := List.isEmpty_iff.mp h
    rw [this] at hlenpos
    exact absurd hlenpos (by simp)

theorem blockAt_testPuzzleOf (puzzle : List Block) (removed : List Nat) (index i : Nat)
    (h : i < puzzle.length) :
    blockAt (testPuzzleOf puzzle removed index) i =
      { blockAt puzzle i with
          type := if i = index then none else (blockAt puzzle i).type
          isLocked := decide (i ≠ index ∧ ¬ i ∈ removed) } := by
  rw [testPuzzleOf, blockAt, getD_map_range puzzle.length i _ _ h]

theorem blockAt_allSuns (j : Nat) (h : j < 36) :
    blockAt allSunsBoard j = ⟨j, some CellType.sun, 0, true, false⟩ := by
  rw [allSunsBoard, blockAt, getD_map_range 36 j _ _ h]

theorem length_testPuzzleOf (puzzle : List Block) (removed : List Nat) (index : Nat) :
    (testPuzzleOf puzzle removed index).length = puzzle.length := by
  simp [testPuzzleOf]

theorem testPuzzle_allSuns_rowFull (idx r : Nat) (hr : r < 6)
    (hno : ∀ c, c < 6 → r * 6 + c ≠ idx) :
    rowSunsHU (testPuzzleOf allSunsBoard [] idx) 6 r = 6 := by
  have hlenT : (testPuzzleOf allSunsBoard [] idx).length = 36 := by
    rw [length_testPuzzleOf]
    simp [allSunsBoard]
  rw [rowSunsHU, sliceRow_eq_rowCells _ hlenT r hr, rowCellsOf]
  have hall : ∀ b ∈ (List.range 6).map
      (fun c => blockAt (testPuzzleOf allSunsBoard [] idx) (r * 6 + c)),
      (b.type == some CellType.sun) = true := by
    intro b hb
    rw [List.mem_map] at hb
    obtain ⟨c, hc, rfl⟩ := hb
    rw [List.mem_range] at hc
    rw [blockAt_testPuzzleOf allSunsBoard [] idx (r * 6 + c) (by simp [allSunsBoard]; omega)]
    rw [if_neg (hno c hc), blockAt_allSuns (r * 6 + c) (by omega)]
    rfl
  rw [List.countP_eq_length.mpr hall]
  simp

theorem attempt_allSuns_false (critical : List Nat) (idx : Nat) :
    attemptRemoveCell 6 allSunsBoard [] critical idx = false := by
  rw [attemptRemoveCell]
  split_ifs with h
  · rfl
  · have hover : huGo (testPuzzleOf allSunsBoard [] idx) 6 (List.range 6) 0 = none := by
      apply (huGo_eq_none_iff _ _ _).mpr
      by_cases hlt : idx < 6
      · refine ⟨1, by simp, Or.inl ?_⟩
        rw [testPuzzle_allSuns_rowFull idx 1 (by omega) (fun c hc => by omega)]
        omega
      · refine ⟨0, by simp, Or.inl ?_⟩
        rw [testPuzzle_allSuns_rowFull idx 0 (by omega) (fun c hc => by omega)]
        omega
    rw [hasUniqueSolution, hover, Bool.false_and]

theorem removeLoop_allSuns_none (critical : List Nat) (hc : critical.length ≤ 12)
    (rng : Nat → Nat) : ∀ fuel k : Nat,
    removeLoop 6 8 critical rng fuel allSunsBoard [] k = none := by
  intro fuel
  induction fuel with
  | zero => intro k; rfl
  | succ fuel ih =>
    intro k
    rw [removeLoop]
    rw [if_pos (by simp)]
    simp only []
    rw [if_neg (by rw [availableCells_nonempty critical hc]; simp)]
    rw [if_neg (by rw [attempt_allSuns_false critical _]; simp)]
    exact ih (k + 1)

/-- C4 (code bug): on the all-suns solution board every removal candidate
fails `hasUniqueSolution`, yet the candidate pool never shrinks, so the
`while` loop of `createPuzzle` never terminates — for every fuel bound the
fuel-indexed model returns `none`. -/
theorem c4_createPuzzle_diverges_on_all_suns (rng : Nat → Nat) (k0 fuel : Nat) :
    createPuzzle allSunsBoard Difficulty.easy c2Settings 6 rng k0 fuel = none := by
  rw [createPuzzle_count_rw allSunsBoard Difficulty.easy c2Settings 6 rng k0 fuel 8
    c2_count_eq]
  rw [createPuzzleCore,
    removeLoop_allSuns_none (criticalHintsList 6 rng k0)
      (by rw [criticalHintsList_length]) rng fuel (k0 + 2 * 6)]

/-- The opposite symbol. -/
def oppositeSym : CellType → CellType
  | CellType.sun => CellType.moon
  | CellType.moon => CellType.sun

theorem windowForce_eq_some (x y : Option CellType) (t : CellType)
    (h : windowForce x y = some t) :
    ∃ u : CellType, x = some u ∧ y = some u ∧ t = oppositeSym u := by
  rcases x with _ | u1 <;> rcases y with _ | u2 <;>
    (try rcases u1) <;> (try rcases u2) <;>
    simp [windowForce, oppositeSym] at h ⊢ <;> exact h.symm

theorem forall₂_map_range {α : Type} (R : α → α → Prop) (n : Nat) (f g : Nat → α)
    (h : ∀ i < n, R (f i) (g i)) :
    List.Forall₂ R ((List.range n).map f) ((List.range n).map g) := by
  induction n with
  | zero => simp
  | succ n ih =>
    rw [List.range_succ, List.map_append, List.map_append]
    refine List.rel_append (ih (fun i hi => h i (by omega))) ?_
    simp only [List.map_cons, List.map_nil]
    exact List.Forall₂.cons (h n (by omega)) List.Forall₂.nil

theorem forall2_restrict_getD {qs ls : List (Option CellType)}
    (h : List.Forall₂ (fun q s => q = none ∨ q = s) qs ls) (j : Nat) :
    qs.getD j none = none ∨ qs.getD j none = ls.getD j none := by
  induction h generalizing j with
  | nil => exact Or.inl rfl
  | cons h1 h2 ih =>
    cases j with
    | zero => simpa using h1
    | succ j => simpa using ih j

theorem restrict_countType_le (t : CellType) {qs ls : List (Option CellType)}
    (h : List.Forall₂ (fun q s => q = none ∨ q = s) qs ls) :
    countType qs t ≤ countType ls t := by
  induction h with
  | nil => exact Nat.le_refl 0
  | @cons x y qs2 ls2 h1 h2 ih =>
    simp only [countType, List.countP_cons] at ih ⊢
    rcases h1 with h1 | h1
    · subst h1
      simp only [show ((none : Option CellType) == some t) = false from rfl,
        Bool.false_eq_true, if_false, Nat.add_zero]
      rcases hyt : (y == some t) with _ | _ <;> simp [hyt] <;> omega
    · subst h1
      omega

theorem restrict_countType_eq_imp (t : CellType) {qs ls : List (Option CellType)}
    (h : List.Forall₂ (fun q s => q = none ∨ q = s) qs ls)
    (hcnt : countType qs t = countType ls t) :
    ∀ j, qs.getD j none = none → j < ls.length → ls.getD j none ≠ some t := by
  induction h with
  | nil =>
    intro j _ hj
    simp at hj
  | @cons x y qs2 ls2 h1 h2 ih =>
    have hle := restrict_countType_le t h2
    simp only [countType, List.countP_cons] at hcnt
    rcases h1 with hx | hxy
    · subst hx
      simp only [show ((none : Option CellType) == some t) = false from rfl,
        Bool.false_eq_true, if_false, Nat.add_zero] at hcnt
      have hy0 : (y == some t) = false := by
        rcases hyt : (y == some t) with _ | _
        · rfl
        · exfalso
          rw [hyt] at hcnt
          simp only [countType] at hle
          simp only [if_true] at hcnt
          omega
      have htail : countType qs2 t = countType ls2 t := by
        rw [hy0] at hcnt
        simpa [countType] using hcnt
      intro j hq hj
      cases j with
      | zero =>
        simp only [List.getD_cons_zero]
        intro hyc
        rw [hyc] at hy0
        simp at hy0
      | succ j =>
        simp only [List.getD_cons_succ]
        exact ih htail j (by simpa using hq) (by simpa using hj)
    · have htail : countType qs2 t = countType ls2 t := by
        rw [hxy] at hcnt
        simp only [countType]
        omega
      intro j hq hj
      cases j with
      | zero =>
        simp only [List.getD_cons_zero] at hq ⊢
        rw [← hxy, hq]
        simp
      | succ j =>
        simp only [List.getD_cons_succ]
        exact ih htail j (by simpa using hq) (by simpa using hj)

theorem lineCountForce_sound (qs ls : List (Option CellType))
    (h : List.Forall₂ (fun q s => q = none ∨ q = s) qs ls)
    (hsun : countType ls CellType.sun = 3) (hmoon : countType ls CellType.moon = 3)
    (hfull : ∀ j < ls.length, ls.getD j none ≠ none)
    (c : Nat) (hc : c < ls.length) (hempty : qs.getD c none = none)
    (t : CellType) (hf : lineCountForce qs = some t) :
    ls.getD c none = some t := by
  rw [lineCountForce] at hf
  split_ifs at hf with h1 h2
  · obtain rfl : CellType.moon = t := Option.some.inj hf
    have hne := restrict_countType_eq_imp CellType.sun h (by rw [h1, hsun]) c hempty hc
    rcases hls : ls.getD c none with _ | u
    · exact absurd hls (hfull c hc)
    · rcases u
      · exact absurd hls hne
      · rfl
  · obtain rfl : CellType.sun = t := Option.some.inj hf
    have hne := restrict_countType_eq_imp CellType.moon h (by rw [h2, hmoon]) c hempty hc
    rcases hls : ls.getD c none with _ | u
    · exact absurd hls (hfull c hc)
    · rcases u
      · rfl
      · exact absurd hls hne

theorem lineWindowForce_sound (qs ls : List (Option CellType))
    (h : List.Forall₂ (fun q s => q = none ∨ q = s) qs ls)
    (hlen : ls.length = 6) (htrip : hasTripleLine ls = false)
    (hfull : ∀ j < ls.length, ls.getD j none ≠ none)
    (c : Nat) (hc : c < 6) (hempty : qs.getD c none = none)
    (t : CellType) (hf : lineWindowForce qs c = some t) :
    ls.getD c none = some t := by
  have hq2l : ∀ j u, qs.getD j none = some u → ls.getD j none = some u := by
    intro j u hj
    rcases forall2_restrict_getD h j with h2 | h2
    · rw [hj] at h2
      exact absurd h2 (by simp)
    · rw [← h2, hj]
  have hnot3 : ∀ w, w < 4 → ∀ u : CellType,
      ¬(ls.getD w none = some u ∧ ls.getD (w + 1) none = some u ∧
        ls.getD (w + 2) none = some u) := by
    intro w hw u hcontra
    obtain ⟨hw0, hw1, hw2⟩ := hcontra
    rw [hasTripleLine, hlen] at htrip
    have hfalse := (List.any_eq_false.mp htrip) w (List.mem_range.mpr (by omega))
    rw [tripleAt, hw0, hw1, hw2] at hfalse
    simp at hfalse
  have hend : ∀ u : CellType, ls.getD c none ≠ some u →
      ls.getD c none = some (oppositeSym u) := by
    intro u hne
    have hnn := hfull c (by omega)
    rcases hv : ls.getD c none with _ | v
    · exact absurd hv hnn
    · rcases u <;> rcases v <;> simp [oppositeSym] <;> rw [hv] at hne <;> simp at hne
  rw [lineWindowForce] at hf
  rcases hw1 : (if 2 ≤ c then
      windowForce (qs.getD (c - 2) none) (qs.getD (c - 1) none) else none) with _ | t1
  · rw [hw1] at hf
    rcases hw2 : (if 1 ≤ c ∧ c ≤ 4 then
        windowForce (qs.getD (c - 1) none) (qs.getD (c + 1) none) else none) with _ | t2
    · rw [hw2] at hf
      split_ifs at hf with h3
      obtain ⟨u, ha, hb, rfl⟩ := windowForce_eq_some _ _ _ hf
      have hla := hq2l _ _ ha
      have hlb := hq2l _ _ hb
      have hne : ls.getD c none ≠ some u := by
        intro hlc
        exact hnot3 c (by omega) u ⟨hlc, hla, hlb⟩
      exact hend u hne
    · rw [hw2] at hf
      obtain rfl : t2 = t := Option.some.inj hf
      split_ifs at hw2 with h2c
      obtain ⟨u, ha, hb, rfl⟩ := windowForce_eq_some _ _ _ hw2
      have hla := hq2l _ _ ha
      have hlb := hq2l _ _ hb
      have hne : ls.getD c none ≠ some u := by
        intro hlc
        apply hnot3 (c - 1) (by omega) u
        have e1 : c - 1 + 1 = c := by omega
        have e2 : c - 1 + 2 = c + 1 := by omega
        rw [e1, e2]
        exact ⟨hla, hlc, hlb⟩
      exact hend u hne
  · rw [hw1] at hf
    obtain rfl : t1 = t := Option.some.inj hf
    split_ifs at hw1 with h1c
    obtain ⟨u, ha, hb, rfl⟩ := windowForce_eq_some _ _ _ hw1
    have hla := hq2l _ _ ha
    have hlb := hq2l _ _ hb
    have hne : ls.getD c none ≠ some u := by
      intro hlc
      apply hnot3 (c - 2) (by omega) u
      have e1 : c - 2 + 1 = c - 1 := by omega
      have e2 : c - 2 + 2 = c := by omega
      rw [e1, e2]
      exact ⟨hla, hlb, hlc⟩
    exact hend u hne

theorem rowTypes_eq_map (board : List Block) (gs r : Nat) :
    rowTypes board gs r = (List.range gs).map (fun c => typeAt board (r * gs + c)) := by
  rw [rowTypes, rowCellsOf, List.map_map]
  rfl

theorem colTypes_eq_map (board : List Block) (gs c : Nat) :
    colTypes board gs c = (List.range gs).map (fun r => typeAt board (r * gs + c)) := by
  rw [colTypes, colCellsOf, List.map_map]
  rfl

theorem validBoard_row_spec (S : List Block)
    (hfill : ∀ i < 36, (typeAt S i).isSome = true) (hv : isValidBoard S 6 = true)
    (r : Nat) (hr : r < 6) : specLineOK (rowTypes S 6 r) := by
  rw [isValidBoard, Bool.and_eq_true, List.all_eq_true, List.all_eq_true] at hv
  have hgo := hv.1 r (List.mem_range.mpr hr)
  refine (lineGo_spec_of_filled _ (rowTypes_length S 6 r) ?_).mp hgo
  intro x hx
  obtain ⟨c, hc, hcx⟩ := (mem_rowTypes S 6 r x).mp hx
  rw [← hcx]
  exact hfill _ (by omega)

theorem validBoard_col_spec (S : List Block)
    (hfill : ∀ i < 36, (typeAt S i).isSome = true) (hv : isValidBoard S 6 = true)
    (c : Nat) (hc : c < 6) : specLineOK (colTypes S 6 c) := by
  rw [isValidBoard, Bool.and_eq_true, List.all_eq_true, List.all_eq_true] at hv
  have hgo := hv.2 c (List.mem_range.mpr hc)
  refine (lineGo_spec_of_filled _ (colTypes_length S 6 c) ?_).mp hgo
  intro x hx
  obtain ⟨r, hr, hrx⟩ := (mem_colTypes S 6 c x).mp hx
  rw [← hrx]
  exact hfill _ (by omega)

theorem rowTypes_getD (board : List Block) (r c : Nat) (hc : c < 6) :
    (rowTypes board 6 r).getD c none = typeAt board (r * 6 + c) := by
  rw [rowTypes_eq_map, getD_map_range 6 c _ _ hc]

theorem colTypes_getD (board : List Block) (c r : Nat) (hr : r < 6) :
    (colTypes board 6 c).getD r none = typeAt board (r * 6 + c) := by
  rw [colTypes_eq_map, getD_map_range 6 r _ _ hr]

theorem rowTypes_full (S : List Block)
    (hfill : ∀ i < 36, (typeAt S i).isSome = true) (r : Nat) (hr : r < 6) :
    ∀ j < (rowTypes S 6 r).length, (rowTypes S 6 r).getD j none ≠ none := by
  intro j hj
  rw [rowTypes_length] at hj
  rw [rowTypes_getD S r j hj]
  have := hfill (r * 6 + j) (by omega)
  intro hn
  rw [hn] at this
  exact absurd this (by simp)

theorem colTypes_full (S : List Block)
    (hfill : ∀ i < 36, (typeAt S i).isSome = true) (c : Nat) (hc : c < 6) :
    ∀ j < (colTypes S 6 c).length, (colTypes S 6 c).getD j none ≠ none := by
  intro j hj
  rw [colTypes_length] at hj
  rw [colTypes_getD S c j hj]
  have := hfill (j * 6 + c) (by omega)
  intro hn
  rw [hn] at this
  exact absurd this (by simp)

theorem rowTypes_forall₂ (Q S : List Block)
    (hres : ∀ i < 36, typeAt Q i = none ∨ typeAt Q i = typeAt S i) (r : Nat)
    (hr : r < 6) :
    List.Forall₂ (fun q s => q = none ∨ q = s) (rowTypes Q 6 r) (rowTypes S 6 r) := by
  rw [rowTypes_eq_map, rowTypes_eq_map]
  exact forall₂_map_range _ 6 _ _ (fun c hc => hres (r * 6 + c) (by omega))

theorem colTypes_forall₂ (Q S : List Block)
    (hres : ∀ i < 36, typeAt Q i = none ∨ typeAt Q i = typeAt S i) (c : Nat)
    (hc : c < 6) :
    List.Forall₂ (fun q s => q = none ∨ q = s) (colTypes Q 6 c) (colTypes S 6 c) := by
  rw [colTypes_eq_map, colTypes_eq_map]
  exact forall₂_map_range _ 6 _ _ (fun r hr => hres (r * 6 + c) (by omega))

theorem forcedValue_sound (S Q : List Block)
    (hfillS : ∀ i < 36, (typeAt S i).isSome = true) (hv : isValidBoard S 6 = true)
    (hres : ∀ i < 36, typeAt Q i = none ∨ typeAt Q i = typeAt S i)
    (i : Nat) (hi : i < 36) (t : CellType) (hf : forcedValue Q i = some t) :
    typeAt S i = some t := by
  have hr6 : i / 6 < 6 := by omega
  have hc6 : i % 6 < 6 := by omega
  have hidx : i / 6 * 6 + i % 6 = i := by omega
  have hrowF := rowTypes_forall₂ Q S hres (i / 6) hr6
  have hcolF := colTypes_forall₂ Q S hres (i % 6) hc6
  obtain ⟨hrsun, hrmoon, hrtrip⟩ := validBoard_row_spec S hfillS hv (i / 6) hr6
  obtain ⟨hcsun, hcmoon, hctrip⟩ := validBoard_col_spec S hfillS hv (i % 6) hc6
  rw [forcedValue] at hf
  split_ifs at hf with hguard
  have hempty : typeAt Q i = none := by
    by_contra hne
    exact hguard hne
  have hemptyRow : (rowTypes Q 6 (i / 6)).getD (i % 6) none = none := by
    rw [rowTypes_getD Q (i / 6) (i % 6) hc6, hidx]
    exact hempty
  have hemptyCol : (colTypes Q 6 (i % 6)).getD (i / 6) none = none := by
    rw [colTypes_getD Q (i % 6) (i / 6) hr6, hidx]
    exact hempty
  rcases hm1 : lineCountForce (rowTypes Q 6 (i / 6)) with _ | t1
  · rw [hm1] at hf
    rcases hm2 : lineCountForce (colTypes Q 6 (i % 6)) with _ | t2
    · rw [hm2] at hf
      rcases hm3 : lineWindowForce (rowTypes Q 6 (i / 6)) (i % 6) with _ | t3
      · rw [hm3] at hf
        have := lineWindowForce_sound (colTypes Q 6 (i % 6)) (colTypes S 6 (i % 6))
          hcolF (colTypes_length S 6 (i % 6))
          (by rw [hasTripleLine, colTypes_length] at hctrip ⊢; exact hctrip)
          (colTypes_full S hfillS (i % 6) hc6) (i / 6) hr6 hemptyCol t hf
        rw [colTypes_getD S (i % 6) (i / 6) hr6, hidx] at this
        exact this
      · rw [hm3] at hf
        have heq : t3 = t := Option.some.inj hf
        have hsound := lineWindowForce_sound (rowTypes Q 6 (i / 6)) (rowTypes S 6 (i / 6))
          hrowF (rowTypes_length S 6 (i / 6))
          (by rw [hasTripleLine, rowTypes_length] at hrtrip ⊢; exact hrtrip)
          (rowTypes_full S hfillS (i / 6) hr6) (i % 6) hc6 hemptyRow t3 hm3
        rw [rowTypes_getD S (i / 6) (i % 6) hc6, hidx, heq] at hsound
        exact hsound
    · rw [hm2] at hf
      have heq : t2 = t := Option.some.inj hf
      have hsound := lineCountForce_sound (colTypes Q 6 (i % 6)) (colTypes S 6 (i % 6))
        hcolF hcsun hcmoon (colTypes_full S hfillS (i % 6) hc6) (i / 6)
        (by rw [colTypes_length]; omega) hemptyCol t2 hm2
      rw [colTypes_getD S (i % 6) (i / 6) hr6, hidx, heq] at hsound
      exact hsound
  · rw [hm1] at hf
    have heq : t1 = t := Option.some.inj hf
    have hsound := lineCountForce_sound (rowTypes Q 6 (i / 6)) (rowTypes S 6 (i / 6))
      hrowF hrsun hrmoon (rowTypes_full S hfillS (i / 6) hr6) (i % 6)
      (by rw [rowTypes_length]; omega) hemptyRow t1 hm1
    rw [rowTypes_getD S (i / 6) (i % 6) hc6, hidx, heq] at hsound
    exact hsound

theorem length_replayStep (Q : List Block) : (replayStep Q).length = Q.length := by
  simp [replayStep]

theorem replayStep_restricts (S Q : List Block)
    (hfillS : ∀ i < 36, (typeAt S i).isSome = true) (hv : isValidBoard S 6 = true)
    (hlenQ : Q.length = 36)
    (hres : ∀ i < 36, typeAt Q i = none ∨ typeAt Q i = typeAt S i) :
    ∀ i < 36, typeAt (replayStep Q) i = none ∨ typeAt (replayStep Q) i = typeAt S i := by
  intro i hi
  have hblock : blockAt (replayStep Q) i =
      (match forcedValue Q i with
        | some t => { blockAt Q i with type := some t }
        | none => blockAt Q i) := by
    rw [replayStep, blockAt, getD_map_range Q.length i _ _ (by omega)]
  rcases hforced : forcedValue Q i with _ | t
  · rw [typeAt, hblock, hforced]
    exact hres i hi
  · right
    rw [typeAt, hblock, hforced]
    exact (forcedValue_sound S Q hfillS hv hres i hi t hforced).symm

theorem replayIter_restricts (S Q : List Block)
    (hfillS : ∀ i < 36, (typeAt S i).isSome = true) (hv : isValidBoard S 6 = true)
    (hlenQ : Q.length = 36)
    (hres : ∀ i < 36, typeAt Q i = none ∨ typeAt Q i = typeAt S i) :
    ∀ n : Nat, (replayStep^[n] Q).length = 36 ∧
      ∀ i < 36, typeAt (replayStep^[n] Q) i = none ∨
        typeAt (replayStep^[n] Q) i = typeAt S i := by
  intro n
  induction n with
  | zero => exact ⟨hlenQ, hres⟩
  | succ n ih =>
    rw [Function.iterate_succ_apply']
    exact ⟨by rw [length_replayStep, ih.1],
      replayStep_restricts S _ hfillS hv ih.1 ih.2⟩

/-- C2 (amended): for every valid complete solution and every puzzle
`createPuzzle` returns from it, replaying the forced deductions never
contradicts the solution — after any number of rounds every filled cell
agrees with the solution (but the fixed point need not fill every cell, so
exact reconstruction is not guaranteed). -/
theorem c2_createPuzzle_replay_sound (S : List Block) (hlenS : S.length = 36)
    (hfill : ∀ i < 36, (typeAt S i).isSome = true) (hv : isValidBoard S 6 = true)
    (difficulty : Difficulty) (ds : Difficulty → DifficultySettings)
    (rng : Nat → Nat) (k0 fuel : Nat) (P : List Block)
    (hP : createPuzzle S difficulty ds 6 rng k0 fuel = some P) :
    ∀ (n : Nat) (i : Fin 36),
      typeAt (replayStep^[n] P) (i : Nat) = none ∨
      typeAt (replayStep^[n] P) (i : Nat) = typeAt S (i : Nat) := by
  rw [createPuzzle_count_rw S difficulty ds 6 rng k0 fuel _ rfl] at hP
  obtain ⟨hPlen, hcells, _, _⟩ :=
    createPuzzleCore_some_spec S hlenS _ rng k0 fuel _ P hP
  have hres : ∀ i < 36, typeAt P i = none ∨ typeAt P i = typeAt S i := by
    intro i hi
    rcases hcells ⟨i, hi⟩ with ⟨_, hty⟩ | ⟨_, hty⟩
    · exact Or.inr hty
    · exact Or.inl hty
  intro n i
  exact (replayIter_restricts S P hfill hv hPlen hres n).2 (i : Nat) i.isLt

theorem c2_witness :
    typeAt (replayStep^[36] c3WitnessPuzzle) 0 = none ∨
    typeAt (replayStep^[36] c3WitnessPuzzle) 0 = typeAt easyBoard 0 :=
  c2_createPuzzle_replay_sound easyBoard (by decide) (by decide) (by decide)
    Difficulty.easy zeroSettings rngZero 0 1 c3WitnessPuzzle
    (by
      rw [createPuzzle_count_rw easyBoard Difficulty.easy zeroSettings 6 rngZero 0 1 0
        zero_count_eq]
      decide) 36 ⟨0, by decide⟩
